import Mathlib

/-!
Verification of the diagnostic aggregation engine of the rust-enhanced
repository (src/rust/messages.py) against its natural-language
specification.  The Python module is shallowly embedded: pure helpers
become Lean functions, the mutable window store and the message under
construction become explicit state records threaded through the
functions, and environment-dependent primitives (os.path.realpath,
os.path.exists, the Sublime window folders, the optional message
callback and the relevant settings) are collected in an `Env` record.
The classes of batch.py and levels.py are imported by messages.py but
are not part of the sources; they are modelled from the specification
where indicated.
-/

namespace RustMessages

/-- String prefix test on the character data (the semantics of the
Python str.startswith). -/
def strStartsWith (s p : String) : Bool := p.data.isPrefixOf s.data

/-- String suffix test on the character data (the semantics of the
Python str.endswith). -/
def strEndsWith (s p : String) : Bool := p.data.isSuffixOf s.data

/-- Substring containment on the character data (the semantics of the
Python in operator on strings). -/
def listContainsSub (sub : List Char) : List Char → Bool
  | [] => sub.isEmpty
  | c :: t => sub.isPrefixOf (c :: t) || listContainsSub sub t

/-- Substring containment for strings. -/
def strContainsSub (s sub : String) : Bool := listContainsSub sub.data s.data

/-- Replace every occurrence of one character by another (the semantics
of the Python str.replace with single-character arguments). -/
def strReplaceChar (s : String) (a b : Char) : String :=
  String.mk (s.data.map (fun c => if c = a then b else c))

/-- Lexicographic comparison of character lists by code point. -/
def charListLt : List Char → List Char → Bool
  | [], [] => false
  | [], _ :: _ => true
  | _ :: _, [] => false
  | a :: as, b :: bs => if a < b then true else if b < a then false else charListLt as bs

/-- Lexicographic string comparison by code point (the semantics of the
Python comparison of str values). -/
def strLt (a b : String) : Bool := charListLt a.data b.data

/-- Modelled from the spec: levels.py is not under src/.  §3 of the spec
describes Level as one of error, warning, note, help, internal-error,
totally ordered worst-to-best for sorting and tie-break purposes, with
error the most severe (so error carries the smallest rank and an
ascending sort puts errors first). -/
inductive Level : Type where
  | error : Level
  | warning : Level
  | note : Level
  | help : Level
  | internalError : Level
deriving DecidableEq, Repr

/-- Rank used for the total order on levels: error is most severe and
smallest, per the spec. -/
def Level.rank : Level → Nat
  | .error => 0
  | .warning => 1
  | .note => 2
  | .help => 3
  | .internalError => 4

/-- Modelled from the spec: levels.py is not under src/.  The raw level
strings documented in the messages.py docstring are mapped to their
Level; unrecognized strings are conservatively mapped to error. -/
def level_from_str (s : String) : Level :=
  if s = "error" then .error
  else if s = "warning" then .warning
  else if s = "note" then .note
  else if s = "help" then .help
  else if s = "error: internal compiler error" then .internalError
  else .error

/-- A message region, 0-based: ((line_start, col_start), (line_end, col_end)).
Lines and columns are integers, as in Python. -/
abbrev Span : Type := (Int × Int) × (Int × Int)

/-- One diagnostic message (class Message of messages.py).  The
`children` list lives outside this record (children never have children,
so the primary message of one diagnostic is carried around as a Message
together with its child list).  The uuid of the Python code is modelled
as a Nat drawn from a fresh-id counter. -/
structure Message : Type where
  id : Nat
  region_key : Option String := none
  text : Option String := none
  level : Option Level := none
  span : Option Span := none
  path : Option String := none
  code : Option String := none
  primary : Bool := true
  hidden : Bool := false
  suggested_replacement : Option String := none
  parent : Option Nat := none
deriving DecidableEq, Repr

/-- Message.lineno: the 0-based line of the message.  With first = true
the start line of the region, otherwise the end line; 999999999 when the
message has no span. -/
def Message.lineno (m : Message) (first : Bool) : Int :=
  match m.span with
  | some sp => if first then sp.1.1 else sp.2.1
  | none => 999999999

/-- The attributes of a message that do not involve generated
identifiers: path, span, level, text, suggested_replacement, primary,
hidden and code.  Two builds of the same record on different fresh-id
counters agree on this projection. -/
def Message.core (m : Message) :
    Option String × Option Span × Option Level × Option String ×
    Option String × Bool × Bool × Option String :=
  (m.path, m.span, m.level, m.text, m.suggested_replacement, m.primary,
   m.hidden, m.code)

/-- Message.is_similar: equality of the five attributes path, span,
level, text and suggested_replacement, used for deduplication. -/
def Message.is_similar (self other : Message) : Bool :=
  decide (other.path = self.path) && decide (other.span = self.span) &&
  decide (other.level = self.level) && decide (other.text = self.text) &&
  decide (other.suggested_replacement = self.suggested_replacement)

mutual
/-- One raw span record of a diagnostic, per the structure documented in
the docstring of _collect_rust_messages.  line_start is optional because
the code itself stores None into it and because the synthesized fallback
span carries no line information. -/
inductive RawSpan : Type where
  | mk (file_name : String) (byte_start byte_end : Option Int)
       (line_start : Option Int) (line_end column_start column_end : Int)
       (is_primary : Bool) (text : List String) (label : Option String)
       (suggested_replacement : Option String)
       (expansion : Option Expansion) : RawSpan

/-- The expansion record carried by a span when it comes from a macro. -/
inductive Expansion : Type where
  | mk (span : RawSpan) (macro_decl_name : String)
       (def_site_span : Option RawSpan) : Expansion
end

def RawSpan.file_name : RawSpan → String
  | .mk f _ _ _ _ _ _ _ _ _ _ _ => f

def RawSpan.byte_start : RawSpan → Option Int
  | .mk _ bs _ _ _ _ _ _ _ _ _ _ => bs

def RawSpan.byte_end : RawSpan → Option Int
  | .mk _ _ be _ _ _ _ _ _ _ _ _ => be

def RawSpan.line_start : RawSpan → Option Int
  | .mk _ _ _ ls _ _ _ _ _ _ _ _ => ls

def RawSpan.line_end : RawSpan → Int
  | .mk _ _ _ _ le _ _ _ _ _ _ _ => le

def RawSpan.column_start : RawSpan → Int
  | .mk _ _ _ _ _ cs _ _ _ _ _ _ => cs

def RawSpan.column_end : RawSpan → Int
  | .mk _ _ _ _ _ _ ce _ _ _ _ _ => ce

def RawSpan.is_primary : RawSpan → Bool
  | .mk _ _ _ _ _ _ _ p _ _ _ _ => p

def RawSpan.text : RawSpan → List String
  | .mk _ _ _ _ _ _ _ _ t _ _ _ => t

def RawSpan.label : RawSpan → Option String
  | .mk _ _ _ _ _ _ _ _ _ l _ _ => l

def RawSpan.suggested_replacement : RawSpan → Option String
  | .mk _ _ _ _ _ _ _ _ _ _ sr _ => sr

def RawSpan.expansion : RawSpan → Option Expansion
  | .mk _ _ _ _ _ _ _ _ _ _ _ e => e

def Expansion.span : Expansion → RawSpan
  | .mk s _ _ => s

def Expansion.macro_decl_name : Expansion → String
  | .mk _ n _ => n

def Expansion.def_site_span : Expansion → Option RawSpan
  | .mk _ _ d => d

/-- updated = target_span.copy() with is_primary, label and
suggested_replacement overridden from the original span. -/
def RawSpan.withOverrides (t : RawSpan) (p : Bool) (lab sr : Option String) :
    RawSpan :=
  match t with
  | .mk f bs be ls le cs ce _ tx _ _ e => .mk f bs be ls le cs ce p tx lab sr e

/-- Copy the seven location fields (file_name, byte and line/column data)
of src onto t, as done for show_in_span in _collect_rust_messages. -/
def RawSpan.withLocationFrom (t src : RawSpan) : RawSpan :=
  match t with
  | .mk _ _ _ _ _ _ _ p tx lab sr e =>
    .mk src.file_name src.byte_start src.byte_end src.line_start
      src.line_end src.column_start src.column_end p tx lab sr e

/-- Set file_name to the target path and clear line_start, as done in the
target_path fallback branch of _collect_rust_messages. -/
def RawSpan.withFileTarget (t : RawSpan) (fn : String) : RawSpan :=
  match t with
  | .mk _ bs be _ le cs ce p tx lab sr e =>
    .mk fn bs be none le cs ce p tx lab sr e

/-- find_span_r: follow the expansion chain of a span until a span with
no expansion is reached; return that final span together with the last
expansion seen. -/
def find_span_r (s : RawSpan) (expansion : Option Expansion) :
    RawSpan × Option Expansion :=
  match s with
  | .mk _ _ _ _ _ _ _ _ _ _ _ (some (.mk sp n d)) =>
    find_span_r sp (some (.mk sp n d))
  | .mk f bs be ls le cs ce p tx lab sr none =>
    (.mk f bs be ls le cs ce p tx lab sr none, expansion)

/-- A heap of span records addressed by index, with expansion edges given
by node index.  This models the by-reference Python dictionaries in
which a span can reach itself through its own expansion chain, which the
inductive RawSpan type cannot represent. -/
structure SpanGraph : Type where
  expansionOf : Nat → Option Nat

/-- find_span_r on the graph model, with explicit fuel standing for the
recursion depth available to the Python interpreter: the result is none
when the chain does not bottom out within the given depth. -/
def find_span_r_graph (g : SpanGraph) (i : Nat) : Nat → Option Nat
  | 0 => none
  | fuel + 1 =>
    match g.expansionOf i with
    | some j => find_span_r_graph g j fuel
    | none => some i

/-- One raw diagnostic object: message text, level string, optional code
record (code string and optional explanation), spans and nested
children. -/
inductive Diag : Type where
  | mk (message : String) (level : String)
       (code : Option (String × Option String))
       (spans : List RawSpan) (children : List Diag) : Diag

def Diag.message : Diag → String
  | .mk m _ _ _ _ => m

def Diag.level : Diag → String
  | .mk _ l _ _ _ => l

def Diag.code : Diag → Option (String × Option String)
  | .mk _ _ c _ _ => c

def Diag.spans : Diag → List RawSpan
  | .mk _ _ _ s _ => s

def Diag.children : Diag → List Diag
  | .mk _ _ _ _ c => c

/-- The environment a window supplies to the engine: the folder roots of
the window, the base path for resolving relative file names, the
filesystem primitives os.path.realpath and os.path.exists, the two
relevant settings, the target fallback path and whether a message
callback was supplied. -/
structure Env : Type where
  folders : List String
  basePath : String
  realpath : String → String
  pathExists : String → Bool
  hideWarnings : Bool
  targetPath : Option String
  hasMsgCb : Bool

/-- os.path.join for the posix path model: an absolute second component
discards the base. -/
def joinPath (base p : String) : String :=
  if strStartsWith p "/" then p else base ++ "/" ++ p

/-- _is_external: a path is external if it contains the synthetic macro
marker, or is absolute and does not start with any window folder plus
the path separator. -/
def _is_external (folders : List String) (path : String) : Bool :=
  if strContainsSub path "macros>" then true
  else if !strStartsWith path "/" then false
  else !(folders.any (fun folder => strStartsWith path (folder ++ "/")))

/-- make_span_path: realpath of the file name joined onto the base path. -/
def make_span_path (env : Env) (span : RawSpan) : String :=
  env.realpath (joinPath env.basePath span.file_name)

/-- make_span_region: convert the 1-based line/column data of a raw span
to a 0-based region, or none when line_start is unset (or zero, which is
falsy in Python). -/
def make_span_region (span : RawSpan) : Option Span :=
  match span.line_start with
  | some ls =>
    if ls = 0 then none
    else some ((ls - 1, span.column_start - 1), (span.line_end - 1, span.column_end - 1))
  | none => none

/-- The boilerplate summary lines that are suppressed entirely for
diagnostics with zero spans. -/
def is_boilerplate (imsg : String) : Bool :=
  strStartsWith imsg "aborting due to" ||
  strStartsWith imsg "cannot continue" ||
  strStartsWith imsg "Some errors occurred" ||
  strStartsWith imsg "Some errors have detailed" ||
  strStartsWith imsg "For more information about" ||
  strEndsWith imsg "warning emitted" ||
  strEndsWith imsg "warnings emitted"

/-- The synthesized fallback span carrying only a file name, built for a
zero-span diagnostic when the target path is known. -/
def fakeSpan (fn : String) : RawSpan :=
  .mk fn none none none 0 0 0 false [] none none none

/-- The mutable state threaded through _collect_rust_messages: the outer
message being populated, its children list, the messages handed to the
side-channel callback in call order, and the fresh-id counter standing
for uuid generation. -/
structure CState : Type where
  msg : Message
  children : List Message
  side : List Message
  counter : Nat
deriving Repr

/-- add_additional: build a child message at the given span.  A child
whose resolved path does not exist on disk goes to the side channel
only; a child similar to an existing child is dropped; otherwise it is
appended to the children of the outer message. -/
def add_additional (env : Env) (st : CState) (span : RawSpan)
    (text : Option String) (level : String) (sr : Option String) : CState :=
  let child : Message :=
    { id := st.counter, text := text, suggested_replacement := sr,
      level := some (level_from_str level), primary := false,
      path := some (make_span_path env span) }
  let st1 := { st with counter := st.counter + 1 }
  if !env.pathExists (make_span_path env span) then
    if env.hasMsgCb then { st1 with side := st1.side ++ [child] } else st1
  else
    let child := { child with span := make_span_region span }
    if st1.children.any (fun m => m.is_similar child) then st1
    else
      let child := { child with parent := some st1.msg.id }
      { st1 with children := st1.children ++ [child] }

/-- The message code field update of set_primary_message: the code is
recorded only when the compiler supplied a non-empty explanation. -/
def codeUpdate (icode : Option (String × Option String))
    (old : Option String) : Option String :=
  match icode with
  | some (c, some expl) => if expl.isEmpty then old else some c
  | _ => old

/-- The field updates set_primary_message applies to the outer message. -/
def msgPrimaryUpdate (env : Env) (span : RawSpan) (text : String)
    (icode : Option (String × Option String)) (ilevel : String)
    (m : Message) : Message :=
  { m with
    code := codeUpdate icode m.code,
    path := some (make_span_path env span),
    span := make_span_region span,
    text := some text,
    level := some (level_from_str ilevel) }

/-- set_primary_message: populate the outer message from the given span
and text. -/
def set_primary_message (env : Env) (st : CState) (span : RawSpan)
    (text : String) (icode : Option (String × Option String))
    (ilevel : String) : CState :=
  { st with msg := msgPrimaryUpdate env span text icode ilevel st.msg }

/-- The zero-spans branch of _collect_rust_messages: extra info is
attached to the parent span when building a child; otherwise boilerplate
summaries are suppressed, other global notes are anchored at the target
path when known, and failing that are handed to the side channel only.
Returns the updated state and parent info. -/
def collectZeroSpans (env : Env) (imsg ilevel : String)
    (icode : Option (String × Option String)) (pinfo : Option RawSpan)
    (st : CState) : CState × Option RawSpan :=
  match pinfo with
  | some ps => (add_additional env st ps (some imsg) ilevel none, pinfo)
  | none =>
    if is_boilerplate imsg then (st, pinfo)
    else
      match env.targetPath with
      | some tp =>
        let fake := fakeSpan tp
        (set_primary_message env st fake imsg icode ilevel, some fake)
      | none =>
        if env.hasMsgCb then
          let tmp : Message :=
            { id := st.counter, level := some (level_from_str ilevel),
              text := some imsg }
          ({ st with counter := st.counter + 1, side := st.side ++ [tmp] }, pinfo)
        else (st, pinfo)

/-- The show_in_span fallback of the external-macro branch: when the
external resolved span does not exist on disk, relocate it at the parent
span, else at the first primary span of the list (a self-assignment in
the original), else at the target path by mutating the last span of the
list in place, else leave the loop variable rebound to the last span. -/
def resolveExternalSpan (env : Env) (spans : Array RawSpan)
    (pinfo : Option RawSpan) (updated : RawSpan) : Array RawSpan × RawSpan :=
  if env.pathExists updated.file_name then (spans, updated)
  else
    match pinfo with
    | some ps => (spans, updated.withLocationFrom ps)
    | none =>
      match spans.findIdx? (fun sp => sp.is_primary) with
      | some j => (spans, spans[j]?.getD updated)
      | none =>
        match env.targetPath with
        | some tp =>
          match spans[spans.size - 1]? with
          | some lastSp =>
            let newSp := lastSp.withFileTarget tp
            (spans.setD (spans.size - 1) newSp, newSp)
          | none => (spans, updated)
        | none => (spans, (spans[spans.size - 1]?).getD updated)

/-- The part of a span-loop iteration that runs after the external-span
handling, on the current binding s1 of the loop variable: the macro
invocation note, the primary-span handling, the label note and the
suggested-replacement note. -/
def spanStepTail (env : Env) (imsg ilevel : String)
    (icode : Option (String × Option String)) (spans1 : Array RawSpan)
    (s1 : RawSpan) (st1 : CState) (pinfo : Option RawSpan) :
    Array RawSpan × CState × Option RawSpan :=
  let st2 := match s1.expansion with
    | some e =>
      if !_is_external env.folders s1.file_name
          && !strStartsWith e.macro_decl_name "#[" then
        let (invoke_span, _) := find_span_r s1 none
        add_additional env st1 invoke_span (some "in this macro invocation") "help" none
      else st1
    | none => st1
  let r3 :=
    if s1.is_primary then
      match pinfo with
      | some _ => (add_additional env st2 s1 (some imsg) ilevel none, pinfo)
      | none => (set_primary_message env st2 s1 imsg icode ilevel, some s1)
    else (st2, pinfo)
  let st4 := match s1.label with
    | some lab => add_additional env r3.1 s1 (some lab) ilevel none
    | none => r3.1
  let st5 := match s1.suggested_replacement with
    | some sr => add_additional env st4 s1 none "help" (some sr)
    | none => st4
  (spans1, st5, r3.2)

/-- One iteration of the span loop of _collect_rust_messages on the span
at index i.  The spans array is threaded because the Python loop can
rebind its loop variable to another element of the list and, in the
no-primary-span fallback, mutate the last element of the list in place.
Self-assignments of a span onto itself (the found-primary case) have no
effect and are therefore not written back. -/
def spanStep (env : Env) (imsg ilevel : String)
    (icode : Option (String × Option String)) (spans : Array RawSpan)
    (i : Nat) (st : CState) (pinfo : Option RawSpan) :
    Array RawSpan × CState × Option RawSpan :=
  match spans[i]? with
  | none => (spans, st, pinfo)
  | some s0 =>
    if _is_external env.folders s0.file_name then
      let (target_span, expansion) := find_span_r s0 none
      let updated :=
        target_span.withOverrides s0.is_primary s0.label s0.suggested_replacement
      if _is_external env.folders updated.file_name then
        let macro_name := updated.file_name
        let r := resolveExternalSpan env spans pinfo updated
        let stA := add_additional env st r.2
          (some ("Errors occurred in " ++ macro_name ++ " from external crate"))
          ilevel none
        let mtext := String.join r.2.text
        let stB :=
          if mtext ≠ "" then
            add_additional env stA r.2 (some ("Macro text: " ++ mtext)) ilevel none
          else stA
        spanStepTail env imsg ilevel icode r.1 r.2 stB pinfo
      else
        let needNote := match expansion with
          | none => true
          | some e =>
            match e.def_site_span with
            | none => true
            | some d => _is_external env.folders d.file_name
        let stA :=
          if needNote then
            add_additional env st updated
              (some "this error originates in a macro outside of the current crate")
              ilevel none
          else st
        spanStepTail env imsg ilevel icode spans updated stA pinfo
    else spanStepTail env imsg ilevel icode spans s0 st pinfo

/-- The span loop of _collect_rust_messages: k iterations starting at
index i, threading the spans array, the state and the parent info. -/
def spanLoop (env : Env) (imsg ilevel : String)
    (icode : Option (String × Option String)) (spans : Array RawSpan)
    (i : Nat) (k : Nat) (st : CState) (pinfo : Option RawSpan) :
    CState × Option RawSpan :=
  match k with
  | 0 => (st, pinfo)
  | k + 1 =>
    let r := spanStep env imsg ilevel icode spans i st pinfo
    spanLoop env imsg ilevel icode r.1 (i + 1) k r.2.1 r.2.2

mutual
/-- _collect_rust_messages: populate the outer message (and its children
and the side channel) from one raw diagnostic, then recurse into the
nested children of the diagnostic with a copy of the current parent
info. -/
def _collect_rust_messages (env : Env) (info : Diag)
    (pinfo0 : Option RawSpan) (st0 : CState) : CState :=
  match info with
  | .mk imsg ilevel icode spans children =>
    if (ilevel != "error") && env.hideWarnings && pinfo0.isNone then st0
    else
      let r1 :=
        if spans.isEmpty then collectZeroSpans env imsg ilevel icode pinfo0 st0
        else (st0, pinfo0)
      let r2 := spanLoop env imsg ilevel icode spans.toArray 0 spans.length r1.1 r1.2
      collectChildrenList env children r2.2 r2.1

/-- The recursion of _collect_rust_messages into the children array of a
diagnostic, each child receiving a copy of the parent info. -/
def collectChildrenList (env : Env) (cs : List Diag)
    (pinfo : Option RawSpan) (st : CState) : CState :=
  match cs with
  | [] => st
  | c :: rest =>
    collectChildrenList env rest pinfo (_collect_rust_messages env c pinfo st)
end

/-- Modelled from the spec: batch.py is not under src/.  §3 of the spec:
a PrimaryBatch wraps a primary Message, the children sharing its
(path, line) key, and a list of outbound cross-link descriptors
(target locator, label). -/
structure PrimaryBatchData : Type where
  primary_message : Message
  children : List Message
  child_links : List (String × String)
deriving DecidableEq, Repr

/-- Modelled from the spec: batch.py is not under src/.  §3 of the spec:
a ChildBatch wraps one or more non-primary Messages sharing a line, and
a single inbound cross-link back to its PrimaryBatch. -/
structure ChildBatchData : Type where
  children : List Message
  back_link : Option (String × String)
deriving DecidableEq, Repr

/-- Modelled from the spec: the two batch variants of §3. -/
inductive MessageBatch : Type where
  | primary : PrimaryBatchData → MessageBatch
  | child : ChildBatchData → MessageBatch
deriving DecidableEq, Repr

/-- The messages of a batch in iteration order: the primary message
followed by its co-located children for a PrimaryBatch, the children for
a ChildBatch. -/
def MessageBatch.msgs : MessageBatch → List Message
  | .primary d => d.primary_message :: d.children
  | .child d => d.children

/-- batch.first(): the representative message of a batch. -/
def MessageBatch.first? : MessageBatch → Option Message
  | .primary d => some d.primary_message
  | .child d => d.children.head?

/-- batch.path(): the path of the representative message (Python strings
modelled with the empty string standing in for an unset path, which
never occurs for saved batches). -/
def MessageBatch.pathKey (b : MessageBatch) : String :=
  ((b.first?.bind Message.path).getD "")

/-- Modelled from the spec: batch hiding is derived, a batch is hidden
iff its messages are all hidden. -/
def MessageBatch.hiddenB (b : MessageBatch) : Bool :=
  b.msgs.all (fun m => m.hidden)

/-- Whether this batch is the PrimaryBatch variant. -/
def MessageBatch.isPrimaryBatch : MessageBatch → Bool
  | .primary _ => true
  | .child _ => false

/-- The grouping key used by _batch_and_cross_link: the path of the
message together with its line (the end line of its span, or the large
sentinel when it has no span). -/
def _batch_key (m : Message) : Option String × Int :=
  (m.path, m.lineno false)

/-- make_file_path: the file locator used in cross links, pointing at
the end of the span of the message, or at an arbitrarily large line when
the message has no span. -/
def make_file_path (env : Env) (m : Message) : String :=
  let p := m.path.getD ""
  let external := if _is_external env.folders p then ":external" else ""
  match m.span with
  | some sp =>
    "file:///" ++ (strReplaceChar p '\\' '/') ++ ":" ++ toString (sp.2.1 + 1)
      ++ ":" ++ toString (sp.2.2 + 1) ++ external
  | none => "file:///" ++ p ++ ":999999999" ++ external

/-- os.path.basename for the posix path model: the final component of
the path. -/
def basename (p : String) : String :=
  String.mk ((p.data.reverse.takeWhile (fun c => c ≠ '/')).reverse)

/-- make_link_text: label for a link from msg toward other.  Same file:
a down arrow when the line of msg is below the line of other, else an up
arrow; different file: the base name of the target.  A 1-based line
suffix is appended exactly when the target has a span. -/
def make_link_text (msg other : Message) : String :=
  let filename :=
    if msg.path = other.path then
      if msg.lineno false < other.lineno false then "↓" else "↑"
    else basename (other.path.getD "")
  if other.span.isSome then filename ++ ":" ++ toString (other.lineno false + 1)
  else filename

/-- Append a message to the children of a batch. -/
def appendToBatch : MessageBatch → Message → MessageBatch
  | .primary d, m => .primary { d with children := d.children ++ [m] }
  | .child d, m => .child { d with children := d.children ++ [m] }

/-- The ordered-map update of the grouping phase: append the message to
the batch stored at its key, or create a new ChildBatch at the end of
the map on the first occurrence of the key. -/
def insertChild (mp : List ((Option String × Int) × MessageBatch))
    (key : Option String × Int) (m : Message) :
    List ((Option String × Int) × MessageBatch) :=
  match mp with
  | [] => [(key, .child { children := [m], back_link := none })]
  | (k, b) :: rest =>
    if k = key then (k, appendToBatch b m) :: rest
    else (k, b) :: insertChild rest key m

/-- The keys of the grouping map, in insertion order. -/
def keysOf (mp : List ((Option String × Int) × MessageBatch)) :
    List (Option String × Int) := mp.map Prod.fst

/-- Ordered-map lookup on the grouping map. -/
def lookupB (mp : List ((Option String × Int) × MessageBatch))
    (k : Option String × Int) : Option MessageBatch :=
  match mp with
  | [] => none
  | (k0, b) :: rest => if k0 = k then some b else lookupB rest k

/-- The first occurrences, in order, of the keys of a list that are not
already among the seen keys. -/
def newKeys (seen : List (Option String × Int)) :
    List (Option String × Int) → List (Option String × Int)
  | [] => []
  | k :: rest =>
    if k ∈ seen then newKeys seen rest else k :: newKeys (seen ++ [k]) rest

/-- The children list of a batch (without the primary message). -/
def batchChildren : MessageBatch → List Message
  | .primary d => d.children
  | .child d => d.children

/-- A fresh child batch holding the given messages and no back link. -/
def childBatchOf (ms : List Message) : MessageBatch :=
  .child { children := ms, back_link := none }

/-- Append several messages to a batch in order. -/
def appendMsgs (b : MessageBatch) (ms : List Message) : MessageBatch :=
  ms.foldl appendToBatch b

/-- The far-away test of the cross-link phase: the representative
message is in a different file from the primary, or more than 5 lines
away from it. -/
def _far_from_primary (pm m : Message) : Bool :=
  decide (m.path ≠ pm.path) || decide ((m.lineno false - pm.lineno false).natAbs > 5)

/-- The grouping phase of _batch_and_cross_link: fold the children into
the insertion-ordered map. -/
def groupFold (cs : List Message)
    (mp : List ((Option String × Int) × MessageBatch)) :
    List ((Option String × Int) × MessageBatch) :=
  cs.foldl (fun mp m => insertChild mp (_batch_key m) m) mp

/-- The initial map of the grouping phase: the PrimaryBatch keyed by the
key of the primary message. -/
def primaryMp (pm : Message) : List ((Option String × Int) × MessageBatch) :=
  [(_batch_key pm, .primary { primary_message := pm, children := [], child_links := [] })]

/-- The outbound link entry contributed by one batch of the map: far
child batches contribute the locator of their representative message and
the label from the primary toward it; the primary batch and near child
batches contribute nothing. -/
def linkEntryOf (env : Env) (pm : Message) (b : MessageBatch) :
    Option (String × String) :=
  match b with
  | .child d =>
    d.children.head?.bind (fun m =>
      if _far_from_primary pm m then
        some (make_file_path env m, make_link_text pm m)
      else none)
  | .primary _ => none

/-- The per-batch rewrite of the cross-link phase: the primary batch
receives the collected outbound links; a far child batch receives the
back link toward the primary. -/
def crossLinkBatch (env : Env) (pm : Message) (links : List (String × String))
    (b : MessageBatch) : MessageBatch :=
  match b with
  | .primary d => .primary { d with child_links := links }
  | .child d =>
    match d.children.head? with
    | some m =>
      if _far_from_primary pm m then
        .child { d with back_link := some (make_file_path env pm, make_link_text m pm) }
      else .child d
    | none => .child d

/-- _batch_and_cross_link: group the primary message and its children by
(path, line) into an insertion-ordered map whose first entry is the
PrimaryBatch, then link every far-away child batch bidirectionally with
the primary, and return the map values in insertion order. -/
def _batch_and_cross_link (env : Env) (pm : Message) (children : List Message) :
    List MessageBatch :=
  let mp := groupFold children (primaryMp pm)
  let newLinks := mp.foldl (fun acc e => acc ++ (linkEntryOf env pm e.2).toList) []
  mp.map (fun e => crossLinkBatch env pm newLinks e.2)

/-- The per-window store: the insertion-ordered path to batch-list map,
the navigation cursor and the store-level hidden flag. -/
structure WindowInfo : Type where
  paths : List (String × List MessageBatch)
  batch_index : Int × Int
  hidden : Bool
deriving DecidableEq, Repr

/-- Ordered-map lookup on the path map. -/
def lookupPath (paths : List (String × List MessageBatch)) (p : String) :
    Option (List MessageBatch) :=
  match paths with
  | [] => none
  | (k, v) :: rest => if k = p then some v else lookupPath rest p

/-- _is_duplicate_message: whether the store already holds, for the path
of the candidate primary message, a PrimaryBatch whose primary message
is similar to the candidate. -/
def _is_duplicate_message (win : Option WindowInfo) (pm : Message) : Bool :=
  let batches := match win with
    | some w =>
      match pm.path with
      | some p => (lookupPath w.paths p).getD []
      | none => []
    | none => []
  batches.any (fun b =>
    match b with
    | .primary d => d.primary_message.is_similar pm
    | .child _ => false)

/-- Assign the region keys rust-(num+i) to the messages of a batch, in
batch iteration order. -/
def setRegionKeys (b : MessageBatch) (num : Nat) : MessageBatch :=
  match b with
  | .primary d =>
    .primary { d with
      primary_message := { d.primary_message with
        region_key := some ("rust-" ++ toString num) },
      children := d.children.mapIdx (fun i m =>
        { m with region_key := some ("rust-" ++ toString (num + 1 + i)) }) }
  | .child d =>
    .child { d with
      children := d.children.mapIdx (fun i m =>
        { m with region_key := some ("rust-" ++ toString (num + i)) }) }

/-- Ordered-map setdefault-and-append on the path map: append the batch
to the list at the path, creating the entry at the end of the map on
first occurrence. -/
def appendBatchAt (paths : List (String × List MessageBatch)) (p : String)
    (b : MessageBatch) : List (String × List MessageBatch) :=
  match paths with
  | [] => [(p, [b])]
  | (k, v) :: rest =>
    if k = p then (k, v ++ [b]) :: rest
    else (k, v) :: appendBatchAt rest p b

/-- The loop of _save_batches: store each batch under its path,
assigning region keys numbered from the count of messages already stored
for that path, and collect every stored message for the callback when
the store is not hidden. -/
def _save_batches_loop (env : Env) :
    WindowInfo → List Message → List MessageBatch → WindowInfo × List Message
  | w, cb, [] => (w, cb)
  | w, cb, b :: rest =>
    let p := b.pathKey
    let path_batches := (lookupPath w.paths p).getD []
    let num := (path_batches.map (fun pb => pb.msgs.length)).sum
    let b1 := setRegionKeys b num
    let w1 := { w with paths := appendBatchAt w.paths p b1 }
    let cb1 := if !w.hidden && env.hasMsgCb then cb ++ b1.msgs else cb
    _save_batches_loop env w1 cb1 rest

/-- _save_batches: create the store lazily when missing and run the
save loop.  Returns the updated store and the callback messages in call
order. -/
def _save_batches (env : Env) (win : Option WindowInfo)
    (batches : List MessageBatch) : WindowInfo × List Message :=
  let w0 := win.getD { paths := [], batch_index := (-1, -1), hidden := false }
  _save_batches_loop env w0 [] batches

/-- The number of PrimaryBatch entries stored for a path. -/
def countPrimaryBatches (win : Option WindowInfo) (p : String) : Nat :=
  match win with
  | some w => ((lookupPath w.paths p).getD []).countP (fun b => b.isPrimaryBatch)
  | none => 0

/-- The result of one ingestion call: the updated store, the advanced
fresh-id counter, and the messages handed to the callback. -/
structure IngestResult : Type where
  win : Option WindowInfo
  counter : Nat
  side : List Message

/-- The falsiness test Python applies to the path of the built primary
message: unset, or the empty string. -/
def pathFalsy : Option String → Bool
  | none => true
  | some s => s.isEmpty

/-- Build the primary message (with children, side messages and advanced
counter) for one inner diagnostic, as add_rust_messages does before
deduplication. -/
def buildPrimary (env : Env) (d : Diag) (c : Nat) : CState :=
  _collect_rust_messages env d none
    { msg := { id := c }, children := [], side := [], counter := c + 1 }

/-- One raw record as read from the build output: an optional reason and
the diagnostic payload. -/
structure RawRecord : Type where
  reason : Option String
  message : Diag

/-- add_rust_messages: reason-filter, build, drop when no path was set,
drop duplicates, batch and cross-link, save. -/
def add_rust_messages (env : Env) (win : Option WindowInfo)
    (record : RawRecord) (c0 : Nat) : IngestResult :=
  let proceed := match record.reason with
    | some r => r = "compiler-message"
    | none => true
  if !proceed then { win := win, counter := c0, side := [] }
  else
    let st := buildPrimary env record.message c0
    if pathFalsy st.msg.path then { win := win, counter := st.counter, side := st.side }
    else if _is_duplicate_message win st.msg then
      { win := win, counter := st.counter, side := st.side }
    else
      let batches := _batch_and_cross_link env st.msg st.children
      let r := _save_batches env win batches
      { win := some r.1, counter := st.counter, side := st.side ++ r.2 }

/-- The sort key per batch: the level of the representative message, the
path, and the line of the representative message, with levels compared
by rank (most severe smallest). -/
def sortKeyOf (p : String) (b : MessageBatch) : Nat × String × Int :=
  (((b.first?.bind Message.level).map Level.rank).getD 0, p,
   ((b.first?.map (fun m => m.lineno false)).getD 999999999))

/-- Lexicographic order on sort keys, as Python compares the tuples. -/
def sortKeyLe (a b : Nat × String × Int) : Bool :=
  decide (a.1 < b.1) || (decide (a.1 = b.1) &&
    (strLt a.2.1 b.2.1 || (decide (a.2.1 = b.2.1) && decide (a.2.2 ≤ b.2.2))))

/-- The item list of _sort_messages: one (key, (path, batch)) entry per
stored batch, in store iteration order. -/
def sortItems (w : WindowInfo) :
    List ((Nat × String × Int) × (String × MessageBatch)) :=
  w.paths.flatMap (fun pb => pb.2.map (fun b => (sortKeyOf pb.1 b, (pb.1, b))))

/-- _sort_messages: when the sort setting is enabled and the store
exists, stable-sort all batches by (level, path, line) and rebuild the
path map by appending the sorted items in order. -/
def _sort_messages (sortEnabled : Bool) (win : Option WindowInfo) :
    Option WindowInfo :=
  if !sortEnabled then win
  else
    match win with
    | none => none
    | some w =>
      let sorted := (sortItems w).mergeSort (fun a b => sortKeyLe a.1 b.1)
      let newPaths := sorted.foldl (fun acc it => appendBatchAt acc it.2.1 it.2.2) []
      some { w with paths := newPaths }

/-- messages_finished: run the sort pass. -/
def messages_finished (sortEnabled : Bool) (win : Option WindowInfo) :
    Option WindowInfo :=
  _sort_messages sortEnabled win

/-- _is_matching_level: only primary messages can match; the all filter
matches everything, error only the error level, warning everything but
the error level. -/
def _is_matching_level (levels : String) (m : Message) : Bool :=
  if !m.primary then false
  else if levels == "all" then true
  else if levels == "error" && (m.level == some Level.error) then true
  else if levels == "warning" && (m.level != some Level.error) then true
  else false

/-- The navigation candidate test: the batch is not hidden and its
representative message matches the severity filter. -/
def candidateOk (levels : String) (b : MessageBatch) : Bool :=
  !b.hiddenB && ((b.first?.map (fun m => _is_matching_level levels m)).getD false)

/-- The forward scan of _advance_next_message: from (pi, bi) walk batch
indices upward, crossing path boundaries in path order, and return the
first position whose batch passes the test. -/
def scanF (ok : MessageBatch → Bool) (paths : List (List MessageBatch))
    (pi bi : Nat) : Option (Nat × Nat) :=
  match hp : paths[pi]? with
  | none => none
  | some bs =>
    match hb : bs[bi]? with
    | none => scanF ok paths (pi + 1) 0
    | some b => if ok b then some (pi, bi) else scanF ok paths pi (bi + 1)
termination_by (paths.length - pi, (paths[pi]?.getD []).length - bi)
decreasing_by
· apply Prod.Lex.left
  have h1 : pi < paths.length := by
    by_contra hc
    rw [List.getElem?_eq_none (Nat.le_of_not_lt hc)] at hp
    exact Option.noConfusion hp
  omega
· apply Prod.Lex.right
  rw [hp]
  have h2 : bi < bs.length := by
    by_contra hc
    rw [List.getElem?_eq_none (Nat.le_of_not_lt hc)] at hb
    exact Option.noConfusion hb
  simp only [Option.getD_some]
  omega

/-- The backward scan of _advance_prev_message: from (pi, bi) walk batch
indices downward, stepping to the end of the previous path list when the
batch index runs below zero. -/
def scanB (ok : MessageBatch → Bool) (paths : List (List MessageBatch))
    (pi bi : Int) : Option (Nat × Nat) :=
  if hneg : pi < 0 then none
  else
    match hp : paths[pi.toNat]? with
    | none => none
    | some bs =>
      if hbneg : bi < 0 then
        if hpi : pi - 1 ≥ 0 then
          let len := ((paths[(pi - 1).toNat]?.getD []).length : Int)
          scanB ok paths (pi - 1) (len - 1)
        else none
      else
        match hb : bs[bi.toNat]? with
        | some b => if ok b then some (pi.toNat, bi.toNat) else scanB ok paths pi (bi - 1)
        | none => none
termination_by ((pi + 1).toNat, (bi + 1).toNat)
decreasing_by
· apply Prod.Lex.left
  omega
· apply Prod.Lex.right
  omega

/-- _last_index: the index of the last batch of the last path. -/
def _last_index (paths : List (List MessageBatch)) : Int × Int :=
  ((paths.length : Int) - 1, (((paths.getLast?.getD []).length : Int) - 1))

/-- _advance_next_message: step the cursor forward to the next matching
batch, starting at the beginning when the cursor is unpositioned, and
retrying once from the beginning after resetting the cursor when the
scan runs off the end; the cursor is left unpositioned when both passes
fail. -/
def _advance_next_message (levels : String) (w : WindowInfo) :
    WindowInfo × Option (Nat × Nat) :=
  let paths := w.paths.map (fun pb => pb.2)
  let ok := candidateOk levels
  let start : Nat × Nat :=
    if w.batch_index.1 = -1 then (0, 0)
    else (w.batch_index.1.toNat, (w.batch_index.2 + 1).toNat)
  match scanF ok paths start.1 start.2 with
  | some idx => ({ w with batch_index := ((idx.1 : Int), (idx.2 : Int)) }, some idx)
  | none =>
    match scanF ok paths 0 0 with
    | some idx => ({ w with batch_index := ((idx.1 : Int), (idx.2 : Int)) }, some idx)
    | none => ({ w with batch_index := (-1, -1) }, none)

/-- _advance_prev_message: step the cursor backward to the previous
matching batch, starting at the end when the cursor is unpositioned, and
retrying once from the end after resetting the cursor when the scan runs
off the start; the cursor is left unpositioned when both passes fail. -/
def _advance_prev_message (levels : String) (w : WindowInfo) :
    WindowInfo × Option (Nat × Nat) :=
  let paths := w.paths.map (fun pb => pb.2)
  let ok := candidateOk levels
  let start : Int × Int :=
    if w.batch_index.1 = -1 then _last_index paths
    else (w.batch_index.1, w.batch_index.2 - 1)
  match scanB ok paths start.1 start.2 with
  | some idx => ({ w with batch_index := ((idx.1 : Int), (idx.2 : Int)) }, some idx)
  | none =>
    match scanB ok paths (_last_index paths).1 (_last_index paths).2 with
    | some idx => ({ w with batch_index := ((idx.1 : Int), (idx.2 : Int)) }, some idx)
    | none => ({ w with batch_index := (-1, -1) }, none)

/-- A malformed cyclic expansion chain: the single span record reaches
itself through its own expansion. -/
def cyclicSpanGraph : SpanGraph := { expansionOf := fun _ => some 0 }

/-- A message with a span, in the same file as the link target. -/
def c8_src : Message := { id := 0, path := some "/w/a.rs", span := some ((10, 0), (10, 5)) }

/-- A link target in the same file carrying no span. -/
def c8_tgt : Message := { id := 1, path := some "/w/a.rs" }

/-- The amended labelling rule: same file gives a down arrow when the
source line is below the target line and an up arrow otherwise,
different file gives the base name of the target path; in both cases a
colon and the 1-based target line are appended exactly when the target
has a span. -/
def linkLabelSpec (msg other : Message) : String :=
  let base :=
    if msg.path = other.path then
      if msg.lineno false < other.lineno false then "↓" else "↑"
    else basename (other.path.getD "")
  match other.span with
  | some s => base ++ ":" ++ toString (s.2.1 + 1)
  | none => base

/-- A message with a span used to instantiate C10. -/
def c10_m : Message := { id := 0, path := some "/w/a.rs", span := some ((1, 2), (3, 4)) }

/-- The side-channel message built for a zero-span global note that
cannot be anchored anywhere. -/
def sideNoteMsg (counter : Nat) (ilevel imsg : String) : Message :=
  { id := counter, level := some (level_from_str ilevel), text := some imsg }

/-- A concrete environment used by witnesses: one window folder, the
identity realpath, every path existing, warnings shown, no target path
and no callback. -/
def w_env : Env :=
  { folders := ["/w"], basePath := "/w", realpath := fun s => s,
    pathExists := fun _ => true, hideWarnings := false,
    targetPath := none, hasMsgCb := false }

/-- An initial collection state used by witnesses. -/
def w_st : CState := { msg := { id := 0 }, children := [], side := [], counter := 1 }

/-- A primary message at line 3 of a file, used for the C6
counterexample. -/
def c6_pm : Message :=
  { id := 0, path := some "/w/a.rs", span := some ((3, 0), (3, 5)),
    level := some Level.error, text := some "boom" }

/-- A non-primary child whose span ends on the same line 3 of the same
file, so that its batching key equals the key of the primary. -/
def c6_child : Message :=
  { id := 1, path := some "/w/a.rs", span := some ((2, 0), (3, 9)),
    level := some Level.note, text := some "note", primary := false }

/-- The primary batch holding the given message, co-located children and
links. -/
def primaryBatchFor (pm : Message) (ch : List Message)
    (links : List (String × String)) : MessageBatch :=
  .primary { primary_message := pm, children := ch, child_links := links }

/-- The first occurrences, in order, of the strings of a list that are
not among the seen strings. -/
def firstOccurKeys (seen : List String) : List String → List String
  | [] => []
  | k :: rest =>
    if k ∈ seen then firstOccurKeys seen rest
    else k :: firstOccurKeys (seen ++ [k]) rest

/-- A warning-level primary message at line 10, inserted first for the
C2 counterexample. -/
def c2_m1 : Message :=
  { id := 0, path := some "/w/a.rs", span := some ((10, 0), (10, 1)),
    level := some Level.warning, text := some "w" }

/-- An error-level primary message at line 5 of the same file, inserted
second. -/
def c2_m2 : Message :=
  { id := 1, path := some "/w/a.rs", span := some ((5, 0), (5, 1)),
    level := some Level.error, text := some "e" }

/-- A store holding the two batches of one path in insertion order:
warning first, error second. -/
def c2_w : WindowInfo :=
  { paths := [("/w/a.rs", [primaryBatchFor c2_m1 [] [], primaryBatchFor c2_m2 [] []])],
    batch_index := (-1, -1), hidden := false }

/-- The same store after the sort pass: the error batch now precedes the
warning batch inside the path list. -/
def c2_w_sorted : WindowInfo :=
  { paths := [("/w/a.rs", [primaryBatchFor c2_m2 [] [], primaryBatchFor c2_m1 [] []])],
    batch_index := (-1, -1), hidden := false }

/-! ### Shared lemmas -/

/-- A primary message at line 3, used to instantiate C4. -/
def c4_pm : Message :=
  { id := 0, path := some "/w/a.rs", span := some ((3, 0), (3, 5)),
    level := some Level.error, text := some "boom" }

/-- A non-primary child 97 lines below the primary in the same file. -/
def c4_far : Message :=
  { id := 1, path := some "/w/a.rs", span := some ((100, 0), (100, 2)),
    level := some Level.note, text := some "far note", primary := false }

/-- The child batch the far child is expected to land in, carrying the
back link toward the primary. -/
def c4_d : ChildBatchData :=
  { children := [c4_far],
    back_link := some (make_file_path w_env c4_pm, make_link_text c4_far c4_pm) }

/-- A raw primary span at lines 5 to 6 of a project file, used to
instantiate C1 on a concrete record. -/
def c1_span : RawSpan :=
  .mk "src/main.rs" none none (some 5) 6 2 10 true [] none none none

/-- A concrete compiler-message record carrying one primary span. -/
def c1_rec : RawRecord :=
  { reason := some "compiler-message",
    message := .mk "mismatched types" "error" none [c1_span] [] }

/-- Lexicographic at-or-after test on Nat positions: q lies at or after
the start position s in scan order. -/
def lexGeN (s q : Nat × Nat) : Bool :=
  decide (s.1 < q.1) || (decide (q.1 = s.1) && decide (s.2 ≤ q.2))

/-- Strict lexicographic order on Nat positions. -/
def lexLtN (a b : Nat × Nat) : Bool :=
  decide (a.1 < b.1) || (decide (a.1 = b.1) && decide (a.2 < b.2))

/-- Lexicographic at-or-before test against an Int start position. -/
def lexLeI (s : Int × Int) (q : Nat × Nat) : Bool :=
  decide ((q.1 : Int) < s.1) || (decide ((q.1 : Int) = s.1) && decide ((q.2 : Int) ≤ s.2))

/-- All (path index, batch index) positions of a batch-list list, path
indices starting at k, in scan order. -/
def positionsFrom (k : Nat) : List (List MessageBatch) → List (Nat × Nat)
  | [] => []
  | bs :: rest => (List.range bs.length).map (fun bi => (k, bi)) ++ positionsFrom (k + 1) rest

/-- All positions of a batch-list list in scan order. -/
def positions (paths : List (List MessageBatch)) : List (Nat × Nat) :=
  positionsFrom 0 paths

/-- The candidate test read off a position. -/
def okPos (ok : MessageBatch → Bool) (paths : List (List MessageBatch))
    (q : Nat × Nat) : Bool :=
  (((paths[q.1]?.getD [])[q.2]?).map ok).getD false

/-- The navigation candidate test as the claim words it: the batch is
not hidden and its representative message is primary and passes the
severity filter, where all matches every level, error matches only the
error level and warning matches every level except error. -/
def specMatches (levels : String) (b : MessageBatch) : Bool :=
  !b.hiddenB && ((b.first?.map (fun m =>
    m.primary && (levels == "all" ||
      (levels == "error" && m.level == some Level.error) ||
      (levels == "warning" && m.level != some Level.error)))).getD false)

/-- The per-path batch lists of a store, in path order. -/
def navPaths (w : WindowInfo) : List (List MessageBatch) :=
  w.paths.map (fun pb => pb.2)

/-- The matching positions of a store under the severity filter, in scan
order. -/
def specCandidates (levels : String) (w : WindowInfo) : List (Nat × Nat) :=
  (positions (navPaths w)).filter (okPos (specMatches levels) (navPaths w))

/-- The declarative specification of _advance_next_message: take the
first matching position at or after the start (the cursor successor, or
the very first position when the cursor is unpositioned); when the first
pass finds nothing wrap around once and take the first matching position
overall; store the found position, or reset the cursor when both passes
fail. -/
def specAdvanceNext (levels : String) (w : WindowInfo) :
    WindowInfo × Option (Nat × Nat) :=
  let cands := specCandidates levels w
  let firstPass :=
    if w.batch_index.1 = -1 then cands.head?
    else (cands.filter (fun q =>
      lexGeN (w.batch_index.1.toNat, (w.batch_index.2 + 1).toNat) q)).head?
  match firstPass with
  | some q => ({ w with batch_index := ((q.1 : Int), (q.2 : Int)) }, some q)
  | none =>
    match cands.head? with
    | some q => ({ w with batch_index := ((q.1 : Int), (q.2 : Int)) }, some q)
    | none => ({ w with batch_index := (-1, -1) }, none)

/-- The declarative specification of _advance_prev_message: take the
last matching position at or before the start (the cursor predecessor,
or the very last position when the cursor is unpositioned); when the
first pass finds nothing wrap around once and take the last matching
position overall; store the found position, or reset the cursor when
both passes fail. -/
def specAdvancePrev (levels : String) (w : WindowInfo) :
    WindowInfo × Option (Nat × Nat) :=
  let cands := specCandidates levels w
  let firstPass :=
    if w.batch_index.1 = -1 then cands.getLast?
    else (cands.filter (fun q =>
      lexLeI (w.batch_index.1, w.batch_index.2 - 1) q)).getLast?
  match firstPass with
  | some q => ({ w with batch_index := ((q.1 : Int), (q.2 : Int)) }, some q)
  | none =>
    match cands.getLast? with
    | some q => ({ w with batch_index := ((q.1 : Int), (q.2 : Int)) }, some q)
    | none => ({ w with batch_index := (-1, -1) }, none)

/-- A hidden error message used by the C3 witness. -/
def c3_m1 : Message :=
  { id := 0, path := some "/w/a.rs", span := some ((1, 0), (1, 1)),
    level := some Level.error, text := some "e0", hidden := true }

/-- A warning message used by the C3 witness. -/
def c3_m2 : Message :=
  { id := 1, path := some "/w/a.rs", span := some ((5, 0), (5, 1)),
    level := some Level.warning, text := some "w1" }

/-- An error message on a second path used by the C3 witness. -/
def c3_m3 : Message :=
  { id := 2, path := some "/w/b.rs", span := some ((2, 0), (2, 1)),
    level := some Level.error, text := some "e1" }

/-- A hidden error batch used by the C3 witness. -/
def c3_b1 : MessageBatch := primaryBatchFor c3_m1 [] []

/-- A warning batch used by the C3 witness. -/
def c3_b2 : MessageBatch := primaryBatchFor c3_m2 [] []

/-- An error batch on a second path used by the C3 witness. -/
def c3_b3 : MessageBatch := primaryBatchFor c3_m3 [] []

/-- A two-path store with an unpositioned cursor for the C3 witness. -/
def c3_w : WindowInfo :=
  { paths := [("/w/a.rs", [c3_b1, c3_b2]), ("/w/b.rs", [c3_b3])],
    batch_index := (-1, -1), hidden := false }

/-- Similarity is equality of the five dedup attributes. -/
theorem is_similar_eq_true (m1 m2 : Message) :
    m1.is_similar m2 = true ↔
      (m2.path = m1.path ∧ m2.span = m1.span ∧ m2.level = m1.level ∧
        m2.text = m1.text ∧ m2.suggested_replacement = m1.suggested_replacement) := by
  simp [Message.is_similar, Bool.and_eq_true, decide_eq_true_eq, and_assoc]

/-! ### Grouping-map lemmas -/

theorem appendMsgs_cons (b : MessageBatch) (m : Message) (ms : List Message) :
    appendMsgs b (m :: ms) = appendMsgs (appendToBatch b m) ms := rfl

theorem appendMsgs_child (l : List Message) :
    ∀ ms, appendMsgs (childBatchOf ms) l = childBatchOf (ms ++ l) := by
  induction l with
  | nil => intro ms; simp [appendMsgs, childBatchOf]
  | cons m t ih =>
    intro ms
    rw [appendMsgs_cons]
    have h : appendToBatch (childBatchOf ms) m = childBatchOf (ms ++ [m]) := rfl
    rw [h, ih]
    simp

theorem appendMsgs_primary (l : List Message) :
    ∀ d : PrimaryBatchData, appendMsgs (.primary d) l
      = .primary { d with children := d.children ++ l } := by
  induction l with
  | nil => intro d; simp [appendMsgs]
  | cons m t ih =>
    intro d
    rw [appendMsgs_cons]
    have h : appendToBatch (MessageBatch.primary d) m
        = .primary { d with children := d.children ++ [m] } := rfl
    rw [h, ih]
    simp

theorem insertChild_keys (k : Option String × Int) (m : Message) :
    ∀ mp, keysOf (insertChild mp k m)
      = if k ∈ keysOf mp then keysOf mp else keysOf mp ++ [k] := by
  intro mp
  induction mp with
  | nil => simp [insertChild, keysOf]
  | cons e rest ih =>
    obtain ⟨k0, b⟩ := e
    by_cases h : k0 = k
    · subst h
      simp [insertChild, keysOf]
    · have hmem : k ∈ keysOf ((k0, b) :: rest) ↔ k ∈ keysOf rest := by
        simp [keysOf, Ne.symm h]
      simp only [insertChild, if_neg h, keysOf, List.map_cons] at ih ⊢
      rw [ih]
      by_cases h2 : k ∈ List.map Prod.fst rest
      · simp [h2]
      · simp [h2, Ne.symm h]

theorem insertChild_lookup (k : Option String × Int) (m : Message)
    (k2 : Option String × Int) :
    ∀ mp, lookupB (insertChild mp k m) k2 =
      if k2 = k then
        some (match lookupB mp k with
          | some b => appendToBatch b m
          | none => childBatchOf [m])
      else lookupB mp k2 := by
  intro mp
  induction mp with
  | nil =>
    by_cases h : k2 = k
    · subst h
      simp [insertChild, lookupB, childBatchOf]
    · have h2 : ¬ (k = k2) := fun he => h he.symm
      simp [insertChild, lookupB, h, h2]
  | cons e rest ih =>
    obtain ⟨k0, b0⟩ := e
    by_cases h0 : k0 = k
    · subst h0
      have hins : insertChild ((k0, b0) :: rest) k0 m
          = (k0, appendToBatch b0 m) :: rest := by
        simp [insertChild]
      rw [hins]
      by_cases h2 : k2 = k0
      · subst h2
        simp [lookupB]
      · have h3 : ¬ (k0 = k2) := fun he => h2 he.symm
        simp [lookupB, h2, h3]
    · have hins : insertChild ((k0, b0) :: rest) k m
          = (k0, b0) :: insertChild rest k m := by
        simp [insertChild, h0]
      rw [hins]
      by_cases h2 : k0 = k2
      · have h3 : ¬ (k2 = k) := fun he => h0 (h2.trans he)
        simp [lookupB, h2, h3]
      · have h4 : lookupB ((k0, b0) :: rest) k = lookupB rest k := by
          simp [lookupB, h0]
        have h5 : lookupB ((k0, b0) :: rest) k2 = lookupB rest k2 := by
          simp [lookupB, h2]
        have h6 : lookupB ((k0, b0) :: insertChild rest k m) k2
            = lookupB (insertChild rest k m) k2 := by
          simp [lookupB, h2]
        rw [h4, h5, h6, ih]

theorem groupFold_nil (mp : List ((Option String × Int) × MessageBatch)) :
    groupFold [] mp = mp := rfl

theorem groupFold_cons (m : Message) (cs : List Message)
    (mp : List ((Option String × Int) × MessageBatch)) :
    groupFold (m :: cs) mp = groupFold cs (insertChild mp (_batch_key m) m) := rfl

theorem groupFold_keys (cs : List Message) :
    ∀ mp, keysOf (groupFold cs mp)
      = keysOf mp ++ newKeys (keysOf mp) (cs.map _batch_key) := by
  induction cs with
  | nil => intro mp; simp [groupFold, newKeys]
  | cons m rest ih =>
    intro mp
    rw [groupFold_cons, ih, insertChild_keys]
    by_cases h : _batch_key m ∈ keysOf mp
    · simp [h, newKeys]
    · simp [h, newKeys, List.append_assoc]

theorem groupFold_lookup (cs : List Message) :
    ∀ mp k, lookupB (groupFold cs mp) k =
      match lookupB mp k with
      | some b => some (appendMsgs b (cs.filter (fun m => _batch_key m = k)))
      | none =>
        if (cs.filter (fun m => _batch_key m = k)).isEmpty then none
        else some (childBatchOf (cs.filter (fun m => _batch_key m = k))) := by
  induction cs with
  | nil =>
    intro mp k
    cases h : lookupB mp k <;> simp [groupFold, h, appendMsgs]
  | cons m rest ih =>
    intro mp k
    rw [groupFold_cons, ih, insertChild_lookup]
    by_cases hk : k = _batch_key m
    · have hk2 : _batch_key m = k := hk.symm
      have hfil : List.filter (fun m2 => decide (_batch_key m2 = k)) (m :: rest)
          = m :: List.filter (fun m2 => decide (_batch_key m2 = k)) rest :=
        List.filter_cons_of_pos (by simp [hk2])
      rw [if_pos hk, ← hk, hfil]
      cases h : lookupB mp k with
      | some b =>
        simp only [h]
        rw [appendMsgs_cons]
      | none =>
        simp only [h]
        have h1 : appendMsgs (childBatchOf [m])
            (List.filter (fun m2 => decide (_batch_key m2 = k)) rest)
            = childBatchOf (m :: List.filter (fun m2 => decide (_batch_key m2 = k)) rest) := by
          rw [appendMsgs_child]
          simp
        rw [h1]
        simp
    · have hk2 : ¬ (_batch_key m = k) := fun he => hk he.symm
      have hfil : List.filter (fun m2 => decide (_batch_key m2 = k)) (m :: rest)
          = List.filter (fun m2 => decide (_batch_key m2 = k)) rest :=
        List.filter_cons_of_neg (by simp [hk2])
      rw [if_neg hk, hfil]

theorem mem_newKeys (x : Option String × Int) :
    ∀ (l seen : List (Option String × Int)), x ∈ newKeys seen l → x ∉ seen ∧ x ∈ l := by
  intro l
  induction l with
  | nil => intro seen h; simp [newKeys] at h
  | cons k rest ih =>
    intro seen h
    by_cases hk : k ∈ seen
    · rw [newKeys, if_pos hk] at h
      obtain ⟨h1, h2⟩ := ih seen h
      exact ⟨h1, by simp [h2]⟩
    · rw [newKeys, if_neg hk] at h
      rcases List.mem_cons.mp h with h1 | h1
      · exact ⟨h1 ▸ hk, by simp [h1]⟩
      · obtain ⟨h2, h3⟩ := ih (seen ++ [k]) h1
        refine ⟨fun hc => h2 (by simp [hc]), by simp [h3]⟩

theorem newKeys_nodup :
    ∀ (l seen : List (Option String × Int)), seen.Nodup →
      (seen ++ newKeys seen l).Nodup := by
  intro l
  induction l with
  | nil => intro seen h; simpa [newKeys]
  | cons k rest ih =>
    intro seen h
    by_cases hk : k ∈ seen
    · rw [newKeys, if_pos hk]
      exact ih seen h
    · rw [newKeys, if_neg hk]
      have h2 : (seen ++ [k]).Nodup := by
        simp [List.nodup_append, h, hk]
      have h3 := ih (seen ++ [k]) h2
      simpa [List.append_assoc] using h3

theorem map_snd_getElem :
    ∀ (mp : List ((Option String × Int) × MessageBatch)),
      (keysOf mp).Nodup → ∀ i : Nat,
      (mp.map Prod.snd)[i]? = ((keysOf mp)[i]?).bind (fun k => lookupB mp k) := by
  intro mp
  induction mp with
  | nil => intro _ i; simp [keysOf, lookupB]
  | cons e rest ih =>
    obtain ⟨k0, b0⟩ := e
    intro h i
    rw [keysOf, List.map_cons] at h
    have hn : (keysOf rest).Nodup := (List.nodup_cons.mp h).2
    have h0 : k0 ∉ (keysOf rest) := (List.nodup_cons.mp h).1
    cases i with
    | zero => simp [keysOf, lookupB]
    | succ n =>
      have hrec := ih hn n
      simp only [List.map_cons, List.getElem?_cons_succ, keysOf] at hrec ⊢
      rw [hrec]
      cases hk : (List.map Prod.fst rest)[n]? with
      | none => simp
      | some k =>
        have hmem : k ∈ List.map Prod.fst rest := List.getElem?_mem hk
        have hne : ¬ (k0 = k) := fun he => h0 (by rw [keysOf, he]; exact hmem)
        simp [lookupB, hne]

theorem foldl_append_toList {α β : Type} (h : α → Option β) :
    ∀ (l : List α) (acc : List β),
      l.foldl (fun acc e => acc ++ (h e).toList) acc = acc ++ l.filterMap h := by
  intro l
  induction l with
  | nil => intro acc; simp
  | cons e t ih =>
    intro acc
    simp only [List.foldl_cons, List.filterMap_cons]
    rw [ih]
    cases he : h e <;> simp [he]

theorem crossLinkBatch_isPrimary (env : Env) (pm : Message)
    (ls : List (String × String)) (b : MessageBatch) :
    (crossLinkBatch env pm ls b).isPrimaryBatch = b.isPrimaryBatch := by
  cases b with
  | primary d => rfl
  | child d =>
    simp only [crossLinkBatch]
    cases d.children.head? with
    | none => rfl
    | some m =>
      by_cases hf : _far_from_primary pm m <;> simp [hf, MessageBatch.isPrimaryBatch]

theorem crossLinkBatch_children (env : Env) (pm : Message)
    (ls : List (String × String)) (b : MessageBatch) :
    batchChildren (crossLinkBatch env pm ls b) = batchChildren b := by
  cases b with
  | primary d => rfl
  | child d =>
    simp only [crossLinkBatch]
    cases d.children.head? with
    | none => rfl
    | some m =>
      by_cases hf : _far_from_primary pm m <;> simp [hf, batchChildren]

theorem linkEntryOf_crossLink (env : Env) (pm : Message)
    (ls : List (String × String)) (b : MessageBatch) :
    linkEntryOf env pm (crossLinkBatch env pm ls b) = linkEntryOf env pm b := by
  cases b with
  | primary d => rfl
  | child d =>
    simp only [crossLinkBatch]
    cases hd : d.children.head? with
    | none => simp [linkEntryOf, hd]
    | some m =>
      by_cases hf : _far_from_primary pm m <;> simp [hf, linkEntryOf, hd]

theorem batch_out_decomp (env : Env) (pm : Message) (cs : List Message) :
    _batch_and_cross_link env pm cs
      = ((groupFold cs (primaryMp pm)).map Prod.snd).map
          (crossLinkBatch env pm
            (((groupFold cs (primaryMp pm)).map Prod.snd).filterMap (linkEntryOf env pm))) := by
  show (groupFold cs (primaryMp pm)).map
      (fun e => crossLinkBatch env pm
        ((groupFold cs (primaryMp pm)).foldl
          (fun acc e => acc ++ (linkEntryOf env pm e.2).toList) []) e.2)
    = _
  rw [foldl_append_toList (fun (e : (Option String × Int) × MessageBatch) =>
    linkEntryOf env pm e.2)]
  rw [List.nil_append, List.filterMap_map, List.map_map]
  rfl

theorem groupFold_keys_primary (pm : Message) (cs : List Message) :
    keysOf (groupFold cs (primaryMp pm))
      = _batch_key pm :: newKeys [_batch_key pm] (cs.map _batch_key) := by
  rw [groupFold_keys]
  simp [primaryMp, keysOf]

theorem groupFold_keys_primary_nodup (pm : Message) (cs : List Message) :
    (keysOf (groupFold cs (primaryMp pm))).Nodup := by
  rw [groupFold_keys_primary]
  have h := newKeys_nodup (cs.map _batch_key) [_batch_key pm] (by simp)
  simpa using h

theorem lookup_groupFold_pkey (pm : Message) (cs : List Message) :
    lookupB (groupFold cs (primaryMp pm)) (_batch_key pm)
      = some (primaryBatchFor pm
          (cs.filter (fun m => _batch_key m = _batch_key pm)) []) := by
  rw [groupFold_lookup]
  have h : lookupB (primaryMp pm) (_batch_key pm)
      = some (primaryBatchFor pm [] []) := by
    simp [primaryMp, lookupB, primaryBatchFor]
  rw [h]
  show some (appendMsgs (primaryBatchFor pm [] []) _) = _
  rw [primaryBatchFor, appendMsgs_primary]
  simp [primaryBatchFor]

theorem lookup_groupFold_other (pm : Message) (cs : List Message)
    (k : Option String × Int) (hk : k ≠ _batch_key pm) :
    lookupB (groupFold cs (primaryMp pm)) k
      = (if (cs.filter (fun m => _batch_key m = k)).isEmpty then none
         else some (childBatchOf (cs.filter (fun m => _batch_key m = k)))) := by
  rw [groupFold_lookup]
  have h2 : ¬ (_batch_key pm = k) := fun he => hk he.symm
  have h : lookupB (primaryMp pm) k = none := by
    simp [primaryMp, lookupB, h2]
  rw [h]

theorem crossLinkBatch_childBatchOf (env : Env) (pm : Message)
    (ls : List (String × String)) (ms : List Message) :
    (crossLinkBatch env pm ls (childBatchOf ms)).isPrimaryBatch = false ∧
    batchChildren (crossLinkBatch env pm ls (childBatchOf ms)) = ms := by
  refine ⟨?_, ?_⟩
  · rw [crossLinkBatch_isPrimary]
    rfl
  · rw [crossLinkBatch_children]
    rfl

theorem out_getElem (env : Env) (pm : Message) (cs : List Message) (i : Nat) :
    (_batch_and_cross_link env pm cs)[i]?
      = (((_batch_key pm :: newKeys [_batch_key pm] (cs.map _batch_key))[i]?).bind
          (fun k => lookupB (groupFold cs (primaryMp pm)) k)).map
          (crossLinkBatch env pm
            (((groupFold cs (primaryMp pm)).map Prod.snd).filterMap (linkEntryOf env pm))) := by
  rw [batch_out_decomp, List.getElem?_map,
    map_snd_getElem _ (groupFold_keys_primary_nodup pm cs), groupFold_keys_primary]

theorem ks_succ_facts (pm : Message) (cs : List Message) (n : Nat)
    (k : Option String × Int)
    (h : (newKeys [_batch_key pm] (cs.map _batch_key))[n]? = some k) :
    k ≠ _batch_key pm ∧ (cs.filter (fun m => _batch_key m = k)) ≠ [] := by
  have hmem := List.getElem?_mem h
  obtain ⟨hnot, hin⟩ := mem_newKeys k _ _ hmem
  constructor
  · intro he
    exact hnot (by simp [he])
  · obtain ⟨m, hm, hkey⟩ := List.mem_map.mp hin
    intro hnil
    have hmf : m ∈ cs.filter (fun m2 => _batch_key m2 = k) :=
      List.mem_filter.mpr ⟨hm, by simp [hkey]⟩
    simp [hnil] at hmf

theorem lookup_groupFold_newKey (pm : Message) (cs : List Message) (n : Nat)
    (k : Option String × Int)
    (h : (newKeys [_batch_key pm] (cs.map _batch_key))[n]? = some k) :
    lookupB (groupFold cs (primaryMp pm)) k
      = some (childBatchOf (cs.filter (fun m => _batch_key m = k))) := by
  obtain ⟨hk, hne⟩ := ks_succ_facts pm cs n k h
  rw [lookup_groupFold_other pm cs k hk]
  rw [if_neg (by simpa using hne)]

/-! ### C5 -/

/-- C5: Message.is_similar returns True iff the two messages agree on
exactly the five attributes path, span, level, text and
suggested_replacement; changing any one of the five makes it return
False, and no attribute outside the five (in particular the unique id)
affects the result. -/
theorem is_similar_agrees_on_five_attributes (m1 m2 : Message) :
    m1.is_similar m2 = true ↔
      (m2.path = m1.path ∧ m2.span = m1.span ∧ m2.level = m1.level ∧
        m2.text = m1.text ∧ m2.suggested_replacement = m1.suggested_replacement) :=
  is_similar_eq_true m1 m2

/-! ### C7 -/

/-- C7: the claim asserts that span resolution terminates on every
input, including malformed cyclic expansion chains.  On the
by-reference span model the resolver never reaches a result on the
cyclic chain, whatever recursion depth is available: find_span_r has no
depth cap and diverges, as §9 of the spec itself records. -/
theorem find_span_r_graph_cyclic_diverges :
    ∀ fuel i, find_span_r_graph cyclicSpanGraph i fuel = none := by
  intro fuel
  induction fuel with
  | zero => intro i; rfl
  | succ n ih =>
    intro i
    simp only [find_span_r_graph, cyclicSpanGraph]
    exact ih 0

/-! ### C8 -/

/-- C8 counterexample: for a same-file target without a span the label
is the bare arrow, not an arrow plus the 1-based target line number as
the claim states (the line suffix is conditional on the target having a
span in the same-file case too). -/
theorem make_link_text_no_line_when_target_spanless :
    make_link_text c8_src c8_tgt = "↓" ∧
      make_link_text c8_src c8_tgt ≠ "↓:1000000000" := by
  exact ⟨rfl, by decide⟩

/-- C8 amended: the link label follows the amended rule in which the
line-number suffix is appended, in the same-file case as well, exactly
when the target has a span. -/
theorem make_link_text_matches_spec (msg other : Message) :
    make_link_text msg other = linkLabelSpec msg other := by
  unfold make_link_text linkLabelSpec
  cases h : other.span with
  | none => simp [h, Message.lineno]
  | some s => simp [h, Message.lineno, Option.isSome]

/-! ### C10 -/

/-- C10: lineno with the default argument returns the 0-based end line
of the span (not its start line) and the large sentinel without a span;
this end line is the line of the batching key, of the far-away cross
link test, and of the line number shown in link labels. -/
theorem lineno_uses_span_end :
    (∀ (m : Message) (s : Span), m.span = some s →
        m.lineno false = s.2.1 ∧ m.lineno true = s.1.1) ∧
    (∀ m : Message, m.span = none → m.lineno false = 999999999) ∧
    (∀ m : Message, _batch_key m = (m.path, m.lineno false)) ∧
    (∀ (pm m : Message) (sp s : Span), pm.span = some sp → m.span = some s →
        (_far_from_primary pm m = true ↔
          (m.path ≠ pm.path ∨ (s.2.1 - sp.2.1).natAbs > 5))) ∧
    (∀ (msg other : Message) (s : Span), other.span = some s →
        make_link_text msg other =
          (if msg.path = other.path then
              (if msg.lineno false < other.lineno false then "↓" else "↑")
            else basename (other.path.getD "")) ++ ":" ++ toString (s.2.1 + 1)) := by
  refine ⟨?_, ?_, ?_, ?_, ?_⟩
  · intro m s h; simp [Message.lineno, h]
  · intro m h; simp [Message.lineno, h]
  · intro m; rfl
  · intro pm m sp s hsp hs
    simp [_far_from_primary, Message.lineno, hsp, hs, Bool.or_eq_true,
      decide_eq_true_eq]
  · intro msg other s h
    simp [make_link_text, Message.lineno, h]

/-- Witness for C10 at a concrete message: the span is present and the
default lineno is the end line 3, not the start line 1. -/
theorem lineno_uses_span_end_witness :
    c10_m.span = some ((1, 2), (3, 4)) ∧ c10_m.lineno false = 3 :=
  ⟨rfl, (lineno_uses_span_end.1 c10_m ((1, 2), (3, 4)) rfl).1⟩

/-! ### C6 -/

/-- C6 counterexample: a child message sharing the (path, line) key of
the primary is appended to the PrimaryBatch itself; no ChildBatch is
created for it, contrary to the claim that every child message is
appended to a shared ChildBatch of its key. -/
theorem colocated_child_joins_primary_batch :
    _batch_and_cross_link w_env c6_pm [c6_child]
      = [primaryBatchFor c6_pm [c6_child] []] ∧
    c6_child.primary = false ∧ _batch_key c6_child = _batch_key c6_pm := by
  refine ⟨by decide, by decide, by decide⟩

/-- C6 amended: batching keys the primary by (path, line) as the head of
an insertion-ordered map; children are grouped by their (path, line)
key, every group whose key differs from the primary key lands in one
shared ChildBatch created at the first occurrence of that key, while
children sharing the primary key are appended to the PrimaryBatch
itself; the returned sequence is the map values in insertion order, the
PrimaryBatch first and the ChildBatches in first-occurrence order of
their keys. -/
theorem batching_groups_by_key (env : Env) (pm : Message) (cs : List Message) :
    (∀ i : Nat,
      ((_batch_and_cross_link env pm cs)[i]?).map
          (fun b => (b.isPrimaryBatch, batchChildren b))
        = ((_batch_key pm :: newKeys [_batch_key pm] (cs.map _batch_key))[i]?).map
            (fun k => (decide (k = _batch_key pm),
              cs.filter (fun m => _batch_key m = k)))) ∧
    (∃ links, (_batch_and_cross_link env pm cs).head?
        = some (primaryBatchFor pm
            (cs.filter (fun m => _batch_key m = _batch_key pm)) links)) := by
  constructor
  · intro i
    rw [out_getElem]
    cases i with
    | zero =>
      rw [List.getElem?_cons_zero, Option.some_bind, lookup_groupFold_pkey]
      simp [primaryBatchFor, crossLinkBatch, MessageBatch.isPrimaryBatch, batchChildren]
    | succ n =>
      rw [List.getElem?_cons_succ]
      cases h : (newKeys [_batch_key pm] (cs.map _batch_key))[n]? with
      | none => simp
      | some k =>
        obtain ⟨hk, -⟩ := ks_succ_facts pm cs n k h
        rw [Option.some_bind, lookup_groupFold_newKey pm cs n k h]
        obtain ⟨hb, hc⟩ := crossLinkBatch_childBatchOf env pm
          (((groupFold cs (primaryMp pm)).map Prod.snd).filterMap (linkEntryOf env pm))
          (cs.filter (fun m => _batch_key m = k))
        simp only [List.filterMap_map] at hb hc
        simp [hb, hc, hk]
  · refine ⟨((groupFold cs (primaryMp pm)).map Prod.snd).filterMap (linkEntryOf env pm), ?_⟩
    have h0 := out_getElem env pm cs 0
    rw [List.head?_eq_getElem?, h0, List.getElem?_cons_zero, Option.some_bind,
      lookup_groupFold_pkey]
    simp [primaryBatchFor, crossLinkBatch]

/-! ### Determinism of the builder modulo generated identifiers -/

theorem add_additional_msg (env : Env) (st : CState) (span : RawSpan)
    (text : Option String) (level : String) (sr : Option String) :
    (add_additional env st span text level sr).msg = st.msg := by
  unfold add_additional
  dsimp only
  split
  · split <;> rfl
  · split <;> rfl

theorem set_primary_msg (env : Env) (st : CState) (span : RawSpan)
    (text : String) (icode : Option (String × Option String)) (ilevel : String) :
    (set_primary_message env st span text icode ilevel).msg
      = msgPrimaryUpdate env span text icode ilevel st.msg := rfl

theorem msgPrimaryUpdate_core_congr (env : Env) (span : RawSpan) (text : String)
    (icode : Option (String × Option String)) (ilevel : String)
    (m1 m2 : Message) (h : m1.core = m2.core) :
    (msgPrimaryUpdate env span text icode ilevel m1).core
      = (msgPrimaryUpdate env span text icode ilevel m2).core := by
  simp only [Message.core, Prod.mk.injEq] at h
  obtain ⟨h1, h2, h3, h4, h5, h6, h7, h8⟩ := h
  simp [msgPrimaryUpdate, Message.core, h5, h6, h7, h8]

theorem collectZeroSpans_pinfo (env : Env) (imsg ilevel : String)
    (icode : Option (String × Option String)) (pinfo : Option RawSpan)
    (st1 st2 : CState) :
    (collectZeroSpans env imsg ilevel icode pinfo st1).2
      = (collectZeroSpans env imsg ilevel icode pinfo st2).2 := by
  unfold collectZeroSpans
  cases pinfo with
  | some ps => rfl
  | none =>
    by_cases hb : is_boilerplate imsg
    · simp [hb]
    · cases htp : env.targetPath with
      | some tp => simp [hb, htp]
      | none => by_cases hcb : env.hasMsgCb <;> simp [hb, htp, hcb]

theorem collectZeroSpans_core (env : Env) (imsg ilevel : String)
    (icode : Option (String × Option String)) (pinfo : Option RawSpan)
    (st1 st2 : CState) (h : st1.msg.core = st2.msg.core) :
    (collectZeroSpans env imsg ilevel icode pinfo st1).1.msg.core
      = (collectZeroSpans env imsg ilevel icode pinfo st2).1.msg.core := by
  unfold collectZeroSpans
  cases pinfo with
  | some ps => simp [add_additional_msg, h]
  | none =>
    by_cases hb : is_boilerplate imsg
    · simp [hb, h]
    · cases htp : env.targetPath with
      | some tp =>
        simp [hb, htp, set_primary_msg, msgPrimaryUpdate_core_congr _ _ _ _ _ _ _ h]
      | none => by_cases hcb : env.hasMsgCb <;> simp [hb, htp, hcb, h]

theorem spanStepTail_fst (env : Env) (imsg ilevel : String)
    (icode : Option (String × Option String)) (spans1 : Array RawSpan)
    (s1 : RawSpan) (st : CState) (pinfo : Option RawSpan) :
    (spanStepTail env imsg ilevel icode spans1 s1 st pinfo).1 = spans1 := rfl

theorem spanStepTail_pinfo (env : Env) (imsg ilevel : String)
    (icode : Option (String × Option String)) (spans1 : Array RawSpan)
    (s1 : RawSpan) (st : CState) (pinfo : Option RawSpan) :
    (spanStepTail env imsg ilevel icode spans1 s1 st pinfo).2.2
      = (if s1.is_primary then
          match pinfo with
          | some _ => pinfo
          | none => some s1
         else pinfo) := by
  unfold spanStepTail
  dsimp only
  by_cases hp : s1.is_primary
  · cases pinfo <;> simp [hp]
  · simp [hp]

theorem spanStepTail_msg (env : Env) (imsg ilevel : String)
    (icode : Option (String × Option String)) (spans1 : Array RawSpan)
    (s1 : RawSpan) (st : CState) (pinfo : Option RawSpan) :
    (spanStepTail env imsg ilevel icode spans1 s1 st pinfo).2.1.msg
      = (if s1.is_primary then
          match pinfo with
          | some _ => st.msg
          | none => msgPrimaryUpdate env s1 imsg icode ilevel st.msg
         else st.msg) := by
  unfold spanStepTail
  dsimp only
  have hst2 : ∀ st0 : CState,
      (match s1.expansion with
        | some e =>
          if !_is_external env.folders s1.file_name
              && !strStartsWith e.macro_decl_name "#[" then
            add_additional env st0 (find_span_r s1 none).1
              (some "in this macro invocation") "help" none
          else st0
        | none => st0).msg = st0.msg := by
    intro st0
    cases hexp : s1.expansion with
    | none => rfl
    | some e =>
      simp only [hexp]
      split
      · rw [add_additional_msg]
      · rfl
  have hst4 : ∀ (st0 : CState),
      (match s1.label with
        | some lab => add_additional env st0 s1 (some lab) ilevel none
        | none => st0).msg = st0.msg := by
    intro st0
    cases hlab : s1.label with
    | none => rfl
    | some lab =>
      simp only [hlab]
      rw [add_additional_msg]
  have hst5 : ∀ (st0 : CState),
      (match s1.suggested_replacement with
        | some sr => add_additional env st0 s1 none "help" (some sr)
        | none => st0).msg = st0.msg := by
    intro st0
    cases hsr : s1.suggested_replacement with
    | none => rfl
    | some sr =>
      simp only [hsr]
      rw [add_additional_msg]
  rw [hst5, hst4]
  cases pinfo with
  | some ps =>
    by_cases hp : s1.is_primary
    · simp only [if_pos hp]
      rw [add_additional_msg, hst2]
    · simp only [if_neg hp]
      exact hst2 st
  | none =>
    by_cases hp : s1.is_primary
    · simp only [if_pos hp]
      rw [set_primary_msg, hst2]
    · simp only [if_neg hp]
      exact hst2 st

theorem spanStep_fst_pinfo (env : Env) (imsg ilevel : String)
    (icode : Option (String × Option String)) (spans : Array RawSpan)
    (i : Nat) (st1 st2 : CState) (pinfo : Option RawSpan) :
    (spanStep env imsg ilevel icode spans i st1 pinfo).1
      = (spanStep env imsg ilevel icode spans i st2 pinfo).1 ∧
    (spanStep env imsg ilevel icode spans i st1 pinfo).2.2
      = (spanStep env imsg ilevel icode spans i st2 pinfo).2.2 := by
  unfold spanStep
  cases hs : spans[i]? with
  | none => exact ⟨rfl, rfl⟩
  | some s0 =>
    dsimp only
    split
    · split
      · rw [spanStepTail_fst, spanStepTail_fst, spanStepTail_pinfo, spanStepTail_pinfo]
        exact ⟨rfl, rfl⟩
      · rw [spanStepTail_fst, spanStepTail_fst, spanStepTail_pinfo, spanStepTail_pinfo]
        exact ⟨rfl, rfl⟩
    · rw [spanStepTail_fst, spanStepTail_fst, spanStepTail_pinfo, spanStepTail_pinfo]
      exact ⟨rfl, rfl⟩

theorem spanStep_core (env : Env) (imsg ilevel : String)
    (icode : Option (String × Option String)) (spans : Array RawSpan)
    (i : Nat) (st1 st2 : CState) (pinfo : Option RawSpan)
    (h : st1.msg.core = st2.msg.core) :
    (spanStep env imsg ilevel icode spans i st1 pinfo).2.1.msg.core
      = (spanStep env imsg ilevel icode spans i st2 pinfo).2.1.msg.core := by
  have htail : ∀ (spans1 : Array RawSpan) (s1 : RawSpan) (stA stB : CState),
      stA.msg.core = stB.msg.core →
      (spanStepTail env imsg ilevel icode spans1 s1 stA pinfo).2.1.msg.core
        = (spanStepTail env imsg ilevel icode spans1 s1 stB pinfo).2.1.msg.core := by
    intro spans1 s1 stA stB hAB
    rw [spanStepTail_msg, spanStepTail_msg]
    by_cases hp : s1.is_primary
    · cases pinfo with
      | some ps => simpa [hp] using hAB
      | none =>
        simp only [hp, if_true]
        exact msgPrimaryUpdate_core_congr _ _ _ _ _ _ _ hAB
    · simpa [hp] using hAB
  unfold spanStep
  cases hs : spans[i]? with
  | none => exact h
  | some s0 =>
    dsimp only
    split
    · split
      · apply htail
        simp [add_additional_msg]
        split <;> simp [add_additional_msg, h]
      · apply htail
        split <;> simp [add_additional_msg, h]
    · exact htail _ _ _ _ h

theorem spanLoop_sim (env : Env) (imsg ilevel : String)
    (icode : Option (String × Option String)) :
    ∀ (k : Nat) (spans : Array RawSpan) (i : Nat) (st1 st2 : CState)
      (pinfo : Option RawSpan), st1.msg.core = st2.msg.core →
      (spanLoop env imsg ilevel icode spans i k st1 pinfo).2
        = (spanLoop env imsg ilevel icode spans i k st2 pinfo).2 ∧
      (spanLoop env imsg ilevel icode spans i k st1 pinfo).1.msg.core
        = (spanLoop env imsg ilevel icode spans i k st2 pinfo).1.msg.core := by
  intro k
  induction k with
  | zero => intro spans i st1 st2 pinfo h; exact ⟨rfl, h⟩
  | succ n ih =>
    intro spans i st1 st2 pinfo h
    unfold spanLoop
    dsimp only
    obtain ⟨hf, hp⟩ := spanStep_fst_pinfo env imsg ilevel icode spans i st1 st2 pinfo
    have hc := spanStep_core env imsg ilevel icode spans i st1 st2 pinfo h
    rw [hf, hp]
    exact ih _ _ _ _ _ hc

mutual
theorem collect_sim (env : Env) (info : Diag) :
    ∀ (pinfo : Option RawSpan) (st1 st2 : CState),
      st1.msg.core = st2.msg.core →
      (_collect_rust_messages env info pinfo st1).msg.core
        = (_collect_rust_messages env info pinfo st2).msg.core := by
  intro pinfo st1 st2 h
  cases info with
  | mk imsg ilevel icode spans children =>
    unfold _collect_rust_messages
    dsimp only
    split
    · exact h
    · have hz2 : (if spans.isEmpty then collectZeroSpans env imsg ilevel icode pinfo st2
          else (st2, pinfo)).2
          = (if spans.isEmpty then collectZeroSpans env imsg ilevel icode pinfo st1
          else (st1, pinfo)).2 := by
        split
        · exact (collectZeroSpans_pinfo env imsg ilevel icode pinfo st2 st1)
        · rfl
      have hz1 : (if spans.isEmpty then collectZeroSpans env imsg ilevel icode pinfo st1
          else (st1, pinfo)).1.msg.core
          = (if spans.isEmpty then collectZeroSpans env imsg ilevel icode pinfo st2
          else (st2, pinfo)).1.msg.core := by
        split
        · exact collectZeroSpans_core env imsg ilevel icode pinfo st1 st2 h
        · exact h
      rw [hz2]
      obtain ⟨hl2, hl1⟩ := spanLoop_sim env imsg ilevel icode spans.length spans.toArray 0
        (if spans.isEmpty then collectZeroSpans env imsg ilevel icode pinfo st1
          else (st1, pinfo)).1
        (if spans.isEmpty then collectZeroSpans env imsg ilevel icode pinfo st2
          else (st2, pinfo)).1
        (if spans.isEmpty then collectZeroSpans env imsg ilevel icode pinfo st1
          else (st1, pinfo)).2 hz1
      rw [hl2]
      exact collectChildren_sim env children _ _ _ hl1

theorem collectChildren_sim (env : Env) (cs : List Diag) :
    ∀ (pinfo : Option RawSpan) (st1 st2 : CState),
      st1.msg.core = st2.msg.core →
      (collectChildrenList env cs pinfo st1).msg.core
        = (collectChildrenList env cs pinfo st2).msg.core := by
  intro pinfo st1 st2 h
  cases cs with
  | nil => exact h
  | cons c rest =>
    unfold collectChildrenList
    exact collectChildren_sim env rest pinfo _ _ (collect_sim env c pinfo st1 st2 h)
end

/-! ### Store lemmas for ingestion -/

theorem appendBatchAt_lookup (p : String) (b : MessageBatch) (q : String) :
    ∀ paths, lookupPath (appendBatchAt paths p b) q
      = if q = p then some (((lookupPath paths p).getD []) ++ [b])
        else lookupPath paths q := by
  intro paths
  induction paths with
  | nil =>
    by_cases h : q = p
    · subst h
      simp [appendBatchAt, lookupPath]
    · have h2 : ¬ (p = q) := fun he => h he.symm
      simp [appendBatchAt, lookupPath, h, h2]
  | cons e rest ih =>
    obtain ⟨k0, v0⟩ := e
    by_cases h0 : k0 = p
    · subst h0
      have hins : appendBatchAt ((k0, v0) :: rest) k0 b = (k0, v0 ++ [b]) :: rest := by
        simp [appendBatchAt]
      rw [hins]
      by_cases h2 : q = k0
      · subst h2
        simp [lookupPath]
      · have h3 : ¬ (k0 = q) := fun he => h2 he.symm
        simp [lookupPath, h2, h3]
    · have hins : appendBatchAt ((k0, v0) :: rest) p b
          = (k0, v0) :: appendBatchAt rest p b := by
        simp [appendBatchAt, h0]
      rw [hins]
      by_cases h2 : k0 = q
      · have h3 : ¬ (q = p) := fun he => h0 (h2.trans he)
        simp [lookupPath, h2, h3]
      · have h4 : lookupPath ((k0, v0) :: rest) p = lookupPath rest p := by
          simp [lookupPath, h0]
        have h5 : lookupPath ((k0, v0) :: rest) q = lookupPath rest q := by
          simp [lookupPath, h2]
        have h6 : lookupPath ((k0, v0) :: appendBatchAt rest p b) q
            = lookupPath (appendBatchAt rest p b) q := by
          simp [lookupPath, h2]
        rw [h4, h5, h6, ih]

theorem setRegionKeys_isPrimary (b : MessageBatch) (num : Nat) :
    (setRegionKeys b num).isPrimaryBatch = b.isPrimaryBatch := by
  cases b <;> rfl

theorem setRegionKeys_primary_core (d : PrimaryBatchData) (num : Nat) :
    ∃ d2 : PrimaryBatchData, setRegionKeys (.primary d) num = .primary d2 ∧
      d2.primary_message.core = d.primary_message.core :=
  ⟨_, rfl, rfl⟩

theorem save_loop_prefix (env : Env) :
    ∀ (bs : List MessageBatch) (w : WindowInfo) (cb : List Message)
      (p : String) (l : List MessageBatch),
      lookupPath w.paths p = some l →
      ∃ l2, lookupPath (_save_batches_loop env w cb bs).1.paths p = some (l ++ l2) := by
  intro bs
  induction bs with
  | nil =>
    intro w cb p l h
    exact ⟨[], by simpa using h⟩
  | cons b rest ih =>
    intro w cb p l h
    unfold _save_batches_loop
    dsimp only
    by_cases hp : p = b.pathKey
    · have h2 : lookupPath w.paths b.pathKey = some l := by
        rw [← hp]
        exact h
      have hl : lookupPath (appendBatchAt w.paths b.pathKey
          (setRegionKeys b ((((lookupPath w.paths b.pathKey).getD []).map
            (fun pb => pb.msgs.length)).sum))) p
          = some (l ++ [setRegionKeys b ((((lookupPath w.paths b.pathKey).getD []).map
            (fun pb => pb.msgs.length)).sum)]) := by
        rw [appendBatchAt_lookup, if_pos hp, h2]
        simp
      obtain ⟨l2, hl2⟩ := ih
        ⟨appendBatchAt w.paths b.pathKey
          (setRegionKeys b ((((lookupPath w.paths b.pathKey).getD []).map
            (fun pb => pb.msgs.length)).sum)), w.batch_index, w.hidden⟩
        (if !w.hidden && env.hasMsgCb then
          cb ++ (setRegionKeys b ((((lookupPath w.paths b.pathKey).getD []).map
            (fun pb => pb.msgs.length)).sum)).msgs
         else cb) p _ hl
      exact ⟨_, by rw [hl2, List.append_assoc]⟩
    · have hl : lookupPath (appendBatchAt w.paths b.pathKey
          (setRegionKeys b ((((lookupPath w.paths b.pathKey).getD []).map
            (fun pb => pb.msgs.length)).sum))) p = some l := by
        rw [appendBatchAt_lookup, if_neg hp]
        exact h
      obtain ⟨l2, hl2⟩ := ih
        ⟨appendBatchAt w.paths b.pathKey
          (setRegionKeys b ((((lookupPath w.paths b.pathKey).getD []).map
            (fun pb => pb.msgs.length)).sum)), w.batch_index, w.hidden⟩
        (if !w.hidden && env.hasMsgCb then
          cb ++ (setRegionKeys b ((((lookupPath w.paths b.pathKey).getD []).map
            (fun pb => pb.msgs.length)).sum)).msgs
         else cb) p _ hl
      exact ⟨l2, hl2⟩

theorem save_loop_count (env : Env) :
    ∀ (bs : List MessageBatch) (w : WindowInfo) (cb : List Message) (p : String),
      ((lookupPath (_save_batches_loop env w cb bs).1.paths p).getD []).countP
          (fun b => b.isPrimaryBatch)
        = ((lookupPath w.paths p).getD []).countP (fun b => b.isPrimaryBatch)
          + bs.countP (fun b => decide (b.pathKey = p) && b.isPrimaryBatch) := by
  intro bs
  induction bs with
  | nil =>
    intro w cb p
    simp [_save_batches_loop]
  | cons b rest ih =>
    intro w cb p
    unfold _save_batches_loop
    dsimp only
    rw [ih]
    have hl := appendBatchAt_lookup b.pathKey
      (setRegionKeys b ((((lookupPath w.paths b.pathKey).getD []).map
        (fun pb => pb.msgs.length)).sum)) p w.paths
    rw [hl]
    by_cases hp : p = b.pathKey
    · rw [if_pos hp]
      have hpk : b.pathKey = p := hp.symm
      simp only [Option.getD_some, List.countP_append, List.countP_cons,
        List.countP_nil, setRegionKeys_isPrimary, hpk]
      cases hb : b.isPrimaryBatch <;> simp [hb] <;> omega
    · rw [if_neg hp]
      have hpk : ¬ (b.pathKey = p) := fun he => hp he.symm
      simp only [List.countP_cons, hpk]
      simp [hpk]

theorem is_similar_of_core_eq (m1 m2 : Message) (h : m1.core = m2.core) :
    m1.is_similar m2 = true := by
  simp only [Message.core, Prod.mk.injEq] at h
  obtain ⟨h1, h2, h3, h4, h5, h6, h7, h8⟩ := h
  rw [is_similar_eq_true]
  exact ⟨h1.symm, h2.symm, h3.symm, h4.symm, h5.symm⟩

theorem out_succ_not_primary (env : Env) (pm : Message) (cs : List Message)
    (n : Nat) (b : MessageBatch)
    (h : (_batch_and_cross_link env pm cs)[n + 1]? = some b) :
    b.isPrimaryBatch = false := by
  rw [out_getElem, List.getElem?_cons_succ] at h
  cases hk : (newKeys [_batch_key pm] (cs.map _batch_key))[n]? with
  | none =>
    rw [hk] at h
    simp at h
  | some k =>
    rw [hk, Option.some_bind, lookup_groupFold_newKey pm cs n k hk] at h
    simp only [Option.map_some'] at h
    rw [← Option.some.inj h]
    exact (crossLinkBatch_childBatchOf env pm _ _).1

theorem batch_out_cons (env : Env) (pm : Message) (cs : List Message) :
    ∃ tl, _batch_and_cross_link env pm cs
      = primaryBatchFor pm (cs.filter (fun m => _batch_key m = _batch_key pm))
          (((groupFold cs (primaryMp pm)).map Prod.snd).filterMap (linkEntryOf env pm))
        :: tl
      ∧ ∀ b ∈ tl, b.isPrimaryBatch = false := by
  have h0 : (_batch_and_cross_link env pm cs)[0]?
      = some (primaryBatchFor pm (cs.filter (fun m => _batch_key m = _batch_key pm))
          (((groupFold cs (primaryMp pm)).map Prod.snd).filterMap (linkEntryOf env pm))) := by
    rw [out_getElem, List.getElem?_cons_zero, Option.some_bind, lookup_groupFold_pkey]
    simp [primaryBatchFor, crossLinkBatch]
  cases hout : _batch_and_cross_link env pm cs with
  | nil =>
    rw [hout] at h0
    simp at h0
  | cons b0 tl =>
    rw [hout] at h0
    simp only [List.getElem?_cons_zero, Option.some.injEq] at h0
    refine ⟨tl, by rw [← h0], ?_⟩
    intro b hb
    obtain ⟨n, hn⟩ := List.getElem?_of_mem hb
    apply out_succ_not_primary env pm cs n b
    rw [hout, List.getElem?_cons_succ]
    exact hn

theorem dup_of_mem (w : WindowInfo) (pm : Message) (p : String)
    (l : List MessageBatch) (d : PrimaryBatchData)
    (hpath : pm.path = some p)
    (hlook : lookupPath w.paths p = some l)
    (hmem : MessageBatch.primary d ∈ l)
    (hsim : d.primary_message.is_similar pm = true) :
    _is_duplicate_message (some w) pm = true := by
  unfold _is_duplicate_message
  rw [hpath]
  dsimp only
  rw [hlook]
  simp only [Option.getD_some]
  rw [List.any_eq_true]
  exact ⟨MessageBatch.primary d, hmem, hsim⟩

/-! ### C2 -/

theorem rebuild_lookup (l : List ((Nat × String × Int) × (String × MessageBatch))) :
    ∀ acc q, lookupPath (l.foldl (fun acc it => appendBatchAt acc it.2.1 it.2.2) acc) q
      = match lookupPath acc q with
        | some v => some (v ++ (l.filter (fun it => it.2.1 = q)).map (fun it => it.2.2))
        | none =>
          if (l.filter (fun it => it.2.1 = q)).isEmpty then none
          else some ((l.filter (fun it => it.2.1 = q)).map (fun it => it.2.2)) := by
  induction l with
  | nil =>
    intro acc q
    cases h : lookupPath acc q <;> simp [h]
  | cons it rest ih =>
    intro acc q
    rw [List.foldl_cons, ih]
    rw [appendBatchAt_lookup]
    by_cases hq : q = it.2.1
    · have hq2 : it.2.1 = q := hq.symm
      have hfil : List.filter (fun it2 => decide (it2.2.1 = q)) (it :: rest)
          = it :: List.filter (fun it2 => decide (it2.2.1 = q)) rest :=
        List.filter_cons_of_pos (by simp [hq2])
      rw [if_pos hq, ← hq, hfil]
      cases h : lookupPath acc q with
      | some v => simp
      | none => simp
    · have hq2 : ¬ (it.2.1 = q) := fun he => hq he.symm
      have hfil : List.filter (fun it2 => decide (it2.2.1 = q)) (it :: rest)
          = List.filter (fun it2 => decide (it2.2.1 = q)) rest :=
        List.filter_cons_of_neg (by simp [hq2])
      rw [if_neg hq, hfil]

theorem rebuild_keys (l : List ((Nat × String × Int) × (String × MessageBatch))) :
    ∀ acc, (l.foldl (fun acc it => appendBatchAt acc it.2.1 it.2.2) acc).map Prod.fst
      = acc.map Prod.fst
        ++ firstOccurKeys (acc.map Prod.fst) (l.map (fun it => it.2.1)) := by
  induction l with
  | nil => intro acc; simp [firstOccurKeys]
  | cons it rest ih =>
    intro acc
    rw [List.foldl_cons, ih]
    have hkeys : ∀ (paths : List (String × List MessageBatch)),
        (appendBatchAt paths it.2.1 it.2.2).map Prod.fst
          = if it.2.1 ∈ paths.map Prod.fst then paths.map Prod.fst
            else paths.map Prod.fst ++ [it.2.1] := by
      intro paths
      induction paths with
      | nil => simp [appendBatchAt]
      | cons e rest2 ih2 =>
        obtain ⟨k0, v0⟩ := e
        by_cases h : k0 = it.2.1
        · subst h
          simp [appendBatchAt]
        · simp only [appendBatchAt, if_neg h, List.map_cons] at ih2 ⊢
          rw [ih2]
          by_cases h2 : it.2.1 ∈ rest2.map Prod.fst
          · simp [h2]
          · simp [h2, Ne.symm h]
    rw [hkeys]
    by_cases h : it.2.1 ∈ acc.map Prod.fst
    · simp [h, List.map_cons, firstOccurKeys]
    · simp [h, List.map_cons, firstOccurKeys, List.append_assoc]

/-- The code-point order on character lists is transitive. -/
theorem charListLt_trans :
    ∀ a b c : List Char, charListLt a b = true → charListLt b c = true →
      charListLt a c = true := by
  intro a
  induction a with
  | nil =>
    intro b c hab hbc
    cases b with
    | nil => exact absurd hab (by simp [charListLt])
    | cons bh bt =>
      cases c with
      | nil => exact absurd hbc (by simp [charListLt])
      | cons ch ct => rfl
  | cons ah at2 ih =>
    intro b c hab hbc
    cases b with
    | nil => exact absurd hab (by simp [charListLt])
    | cons bh bt =>
      cases c with
      | nil => exact absurd hbc (by simp [charListLt])
      | cons ch ct =>
        rw [show charListLt (ah :: at2) (bh :: bt)
            = (if ah < bh then true else if bh < ah then false else charListLt at2 bt)
          from rfl] at hab
        rw [show charListLt (bh :: bt) (ch :: ct)
            = (if bh < ch then true else if ch < bh then false else charListLt bt ct)
          from rfl] at hbc
        rw [show charListLt (ah :: at2) (ch :: ct)
            = (if ah < ch then true else if ch < ah then false else charListLt at2 ct)
          from rfl]
        by_cases h1 : ah < bh
        · by_cases h2 : bh < ch
          · rw [if_pos (lt_trans h1 h2)]
          · by_cases h3 : ch < bh
            · rw [if_neg h2, if_pos h3] at hbc
              cases hbc
            · have hbec : bh = ch := le_antisymm (le_of_not_lt h3) (le_of_not_lt h2)
              rw [if_pos (lt_of_lt_of_le h1 (le_of_eq hbec))]
        · by_cases h1b : bh < ah
          · rw [if_neg h1, if_pos h1b] at hab
            cases hab
          · have haeb : ah = bh := le_antisymm (le_of_not_lt h1b) (le_of_not_lt h1)
            rw [if_neg h1, if_neg h1b] at hab
            by_cases h2 : bh < ch
            · rw [if_pos (lt_of_le_of_lt (le_of_eq haeb) h2)]
            · by_cases h3 : ch < bh
              · rw [if_neg h2, if_pos h3] at hbc
                cases hbc
              · have hbec : bh = ch := le_antisymm (le_of_not_lt h3) (le_of_not_lt h2)
                rw [if_neg h2, if_neg h3] at hbc
                have haec : ah = ch := haeb.trans hbec
                rw [if_neg (by simp [haec]), if_neg (by simp [haec])]
                exact ih bt ct hab hbc

/-- The code-point order on character lists is trichotomous. -/
theorem charListLt_tricho :
    ∀ a b : List Char, charListLt a b = true ∨ a = b ∨ charListLt b a = true := by
  intro a
  induction a with
  | nil =>
    intro b
    cases b with
    | nil => exact Or.inr (Or.inl rfl)
    | cons bh bt => exact Or.inl rfl
  | cons ah at2 ih =>
    intro b
    cases b with
    | nil => exact Or.inr (Or.inr rfl)
    | cons bh bt =>
      by_cases h1 : ah < bh
      · left
        rw [show charListLt (ah :: at2) (bh :: bt)
            = (if ah < bh then true else if bh < ah then false else charListLt at2 bt)
          from rfl, if_pos h1]
      · by_cases h2 : bh < ah
        · right
          right
          rw [show charListLt (bh :: bt) (ah :: at2)
              = (if bh < ah then true else if ah < bh then false else charListLt bt at2)
            from rfl, if_pos h2]
        · have he : ah = bh := le_antisymm (le_of_not_lt h2) (le_of_not_lt h1)
          rcases ih bt with h | h | h
          · left
            rw [show charListLt (ah :: at2) (bh :: bt)
                = (if ah < bh then true else if bh < ah then false else charListLt at2 bt)
              from rfl, if_neg h1, if_neg h2]
            exact h
          · right
            left
            rw [he, h]
          · right
            right
            rw [show charListLt (bh :: bt) (ah :: at2)
                = (if bh < ah then true else if ah < bh then false else charListLt bt at2)
              from rfl, if_neg h2, if_neg h1]
            exact h

/-- The code-point order on strings is trichotomous. -/
theorem strLt_tricho (s t : String) : strLt s t = true ∨ s = t ∨ strLt t s = true := by
  rcases charListLt_tricho s.data t.data with h | h | h
  · exact Or.inl h
  · exact Or.inr (Or.inl (String.ext h))
  · exact Or.inr (Or.inr h)

/-- The lexicographic sort-key comparison is transitive. -/
theorem sortKeyLe_trans :
    ∀ a b c : Nat × String × Int, sortKeyLe a b = true → sortKeyLe b c = true →
      sortKeyLe a c = true := by
  intro a b c h1 h2
  simp only [sortKeyLe, Bool.or_eq_true, Bool.and_eq_true, decide_eq_true_eq] at h1 h2 ⊢
  rcases h1 with h1 | ⟨he1, hs1⟩
  · rcases h2 with h2 | ⟨he2, hs2⟩
    · left
      omega
    · left
      omega
  · rcases h2 with h2 | ⟨he2, hs2⟩
    · left
      omega
    · right
      refine ⟨by omega, ?_⟩
      rcases hs1 with hs1 | ⟨hq1, hi1⟩
      · rcases hs2 with hs2 | ⟨hq2, hi2⟩
        · exact Or.inl (charListLt_trans _ _ _ hs1 hs2)
        · left
          rw [← hq2]
          exact hs1
      · rcases hs2 with hs2 | ⟨hq2, hi2⟩
        · left
          rw [hq1]
          exact hs2
        · exact Or.inr ⟨hq1.trans hq2, by omega⟩

/-- The lexicographic sort-key comparison is total. -/
theorem sortKeyLe_total :
    ∀ a b : Nat × String × Int, (sortKeyLe a b || sortKeyLe b a) = true := by
  intro a b
  simp only [sortKeyLe, Bool.or_eq_true, Bool.and_eq_true, decide_eq_true_eq]
  by_cases h1 : a.1 < b.1
  · exact Or.inl (Or.inl h1)
  · by_cases h2 : b.1 < a.1
    · exact Or.inr (Or.inl h2)
    · have he : a.1 = b.1 := by omega
      rcases strLt_tricho a.2.1 b.2.1 with hs | hs | hs
      · exact Or.inl (Or.inr ⟨he, Or.inl hs⟩)
      · by_cases hi : a.2.2 ≤ b.2.2
        · exact Or.inl (Or.inr ⟨he, Or.inr ⟨hs, hi⟩⟩)
        · exact Or.inr (Or.inr ⟨he.symm, Or.inr ⟨hs.symm, by omega⟩⟩)
      · exact Or.inr (Or.inr ⟨he.symm, Or.inl hs⟩)

unseal List.merge List.mergeSort in
/-- C2 counterexample: with the sort setting enabled, the rebuilt map
reorders the batches of a single path (the error batch at line 5 moves
before the earlier-inserted warning batch at line 10), so the internal
batch order of a path is not preserved as the claim states. -/
theorem sort_pass_reorders_within_path :
    _sort_messages true (some c2_w) = some c2_w_sorted ∧
    lookupPath c2_w.paths "/w/a.rs"
      = some [primaryBatchFor c2_m1 [] [], primaryBatchFor c2_m2 [] []] ∧
    lookupPath c2_w_sorted.paths "/w/a.rs"
      = some [primaryBatchFor c2_m2 [] [], primaryBatchFor c2_m1 [] []] ∧
    c2_w_sorted.paths ≠ c2_w.paths :=
  ⟨by decide, by decide, by decide, by decide⟩

/-- C2 amended: with the setting disabled (or no store) the map is left
untouched; with it enabled, each stored batch receives the key (level,
path, line of the representative message), the batches are rearranged
into a sequence that is a permutation of the stored items, is sorted
ascending by that key (most severe level first, ties resolved by the
stable merge sort, keeping insertion order), and the path map is rebuilt
from that sorted sequence: the path order is the first-occurrence order
of paths in sorted order, and each path maps to exactly its own batches
in sorted order. -/
theorem sort_pass_characterization :
    (∀ win, _sort_messages false win = win) ∧
    (_sort_messages true none = none) ∧
    (∀ w : WindowInfo, ∃ sorted ps,
      sorted = (sortItems w).mergeSort (fun a b => sortKeyLe a.1 b.1) ∧
      sorted.Perm (sortItems w) ∧
      sorted.Pairwise (fun a b => sortKeyLe a.1 b.1 = true) ∧
      _sort_messages true (some w) = some { w with paths := ps } ∧
      ps.map Prod.fst = firstOccurKeys [] (sorted.map (fun it => it.2.1)) ∧
      (∀ p, lookupPath ps p =
        (if (sorted.filter (fun it => it.2.1 = p)).isEmpty then none
         else some ((sorted.filter (fun it => it.2.1 = p)).map (fun it => it.2.2))))) := by
  refine ⟨?_, ?_, ?_⟩
  · intro win
    simp [_sort_messages]
  · simp [_sort_messages]
  · intro w
    refine ⟨(sortItems w).mergeSort (fun a b => sortKeyLe a.1 b.1),
      ((sortItems w).mergeSort (fun a b => sortKeyLe a.1 b.1)).foldl
        (fun acc it => appendBatchAt acc it.2.1 it.2.2) [],
      rfl, List.mergeSort_perm _ _, ?_, ?_, ?_, ?_⟩
    · exact List.sorted_mergeSort
        (fun a b c hab hbc => sortKeyLe_trans a.1 b.1 c.1 hab hbc)
        (fun a b => sortKeyLe_total a.1 b.1) (sortItems w)
    · simp [_sort_messages]
    · rw [rebuild_keys]
      simp
    · intro p
      rw [rebuild_lookup]
      rfl

/-! ### C4 -/

/-- C4: in the output of batching one primary message, the head is the
PrimaryBatch and every other batch is a ChildBatch; a ChildBatch holds a
back link toward the primary exactly when its representative message is
far from the primary (different file, or more than 5 lines away), and
the child links of the PrimaryBatch are exactly the link entries of the
far child batches, in map order, pointing at each of them. -/
theorem cross_link_iff_far (env : Env) (pm : Message) (cs : List Message) :
    ((_batch_and_cross_link env pm cs).head?.map MessageBatch.isPrimaryBatch
        = some true) ∧
    (∀ i : Nat, 1 ≤ i → ∀ b, (_batch_and_cross_link env pm cs)[i]? = some b →
        b.isPrimaryBatch = false) ∧
    (∀ (i : Nat) (d : ChildBatchData),
        (_batch_and_cross_link env pm cs)[i]? = some (MessageBatch.child d) →
        ∃ m, d.children.head? = some m ∧
          d.back_link = (if _far_from_primary pm m then
              some (make_file_path env pm, make_link_text m pm) else none)) ∧
    (∀ dp : PrimaryBatchData,
        (_batch_and_cross_link env pm cs).head? = some (MessageBatch.primary dp) →
        dp.child_links
          = (_batch_and_cross_link env pm cs).filterMap (linkEntryOf env pm)) := by
  have hfun : ∀ ls, (linkEntryOf env pm ∘ crossLinkBatch env pm ls)
      = linkEntryOf env pm := fun ls => funext fun b => linkEntryOf_crossLink env pm ls b
  refine ⟨?_, ?_, ?_, ?_⟩
  · rw [List.head?_eq_getElem?, out_getElem, List.getElem?_cons_zero,
      Option.some_bind, lookup_groupFold_pkey]
    simp [primaryBatchFor, crossLinkBatch, MessageBatch.isPrimaryBatch]
  · intro i hi b hib
    obtain ⟨n, rfl⟩ : ∃ n, i = n + 1 := ⟨i - 1, by omega⟩
    rw [out_getElem, List.getElem?_cons_succ] at hib
    cases h : (newKeys [_batch_key pm] (cs.map _batch_key))[n]? with
    | none =>
      rw [h] at hib
      simp at hib
    | some k =>
      rw [h, Option.some_bind, lookup_groupFold_newKey pm cs n k h] at hib
      simp only [Option.map_some'] at hib
      rw [← Option.some.inj hib]
      exact (crossLinkBatch_childBatchOf env pm _ _).1
  · intro i d hid
    rw [out_getElem] at hid
    cases i with
    | zero =>
      rw [List.getElem?_cons_zero, Option.some_bind, lookup_groupFold_pkey] at hid
      simp [primaryBatchFor, crossLinkBatch] at hid
    | succ n =>
      rw [List.getElem?_cons_succ] at hid
      cases h : (newKeys [_batch_key pm] (cs.map _batch_key))[n]? with
      | none =>
        rw [h] at hid
        simp at hid
      | some k =>
        rw [h, Option.some_bind, lookup_groupFold_newKey pm cs n k h] at hid
        obtain ⟨hk, hne⟩ := ks_succ_facts pm cs n k h
        obtain ⟨m0, t, hfil⟩ := List.exists_cons_of_ne_nil hne
        rw [hfil] at hid
        have hcb : crossLinkBatch env pm
            (((groupFold cs (primaryMp pm)).map Prod.snd).filterMap (linkEntryOf env pm))
            (childBatchOf (m0 :: t))
            = (if _far_from_primary pm m0 then
                MessageBatch.child
                  ⟨m0 :: t, some (make_file_path env pm, make_link_text m0 pm)⟩
              else MessageBatch.child ⟨m0 :: t, none⟩) := by
          simp [crossLinkBatch, childBatchOf]
        rw [Option.map_some', hcb] at hid
        by_cases hf : _far_from_primary pm m0
        · rw [if_pos hf] at hid
          have hd := Option.some.inj hid
          simp only [MessageBatch.child.injEq] at hd
          refine ⟨m0, ?_, ?_⟩
          · rw [← hd]
            rfl
          · rw [← hd, if_pos hf]
        · rw [if_neg hf] at hid
          have hd := Option.some.inj hid
          simp only [MessageBatch.child.injEq] at hd
          refine ⟨m0, ?_, ?_⟩
          · rw [← hd]
            rfl
          · rw [← hd, if_neg hf]
  · intro dp hdp
    rw [List.head?_eq_getElem?, out_getElem, List.getElem?_cons_zero,
      Option.some_bind, lookup_groupFold_pkey] at hdp
    simp only [Option.map_some', primaryBatchFor, crossLinkBatch,
      Option.some.injEq, MessageBatch.primary.injEq] at hdp
    rw [← hdp, batch_out_decomp]
    simp only [List.filterMap_map, hfun]

/-- Witness for C4 at a far-away child: the second batch is a ChildBatch
whose back link points at the primary, as the far condition holds. -/
theorem cross_link_iff_far_witness :
    (_batch_and_cross_link w_env c4_pm [c4_far])[1]? = some (MessageBatch.child c4_d) ∧
    (∃ m, c4_d.children.head? = some m ∧
      c4_d.back_link = (if _far_from_primary c4_pm m then
          some (make_file_path w_env c4_pm, make_link_text m c4_pm) else none)) :=
  ⟨by decide, (cross_link_iff_far w_env c4_pm [c4_far]).2.2.1 1 c4_d (by decide)⟩

/-! ### C9 -/

/-- C9: a top-level zero-span diagnostic is suppressed entirely when its
text matches a recognized boilerplate prefix or suffix (no message, no
side-channel call); otherwise it becomes a primary message anchored at
the target fallback path with no span when that path is known; otherwise
it is delivered only to the side-channel callback and never attached to
a file. -/
theorem zero_span_global_note (env : Env) (imsg ilevel : String)
    (icode : Option (String × Option String)) (st : CState)
    (hgate : ((ilevel != "error") && env.hideWarnings) = false) :
    (is_boilerplate imsg = true →
      _collect_rust_messages env (.mk imsg ilevel icode [] []) none st = st) ∧
    (is_boilerplate imsg = false → ∀ tp, env.targetPath = some tp →
      (_collect_rust_messages env (.mk imsg ilevel icode [] []) none st).msg.path
          = some (env.realpath (joinPath env.basePath tp)) ∧
      (_collect_rust_messages env (.mk imsg ilevel icode [] []) none st).msg.span = none ∧
      (_collect_rust_messages env (.mk imsg ilevel icode [] []) none st).msg.text = some imsg ∧
      (_collect_rust_messages env (.mk imsg ilevel icode [] []) none st).msg.level
          = some (level_from_str ilevel) ∧
      (_collect_rust_messages env (.mk imsg ilevel icode [] []) none st).side = st.side ∧
      (_collect_rust_messages env (.mk imsg ilevel icode [] []) none st).children = st.children) ∧
    (is_boilerplate imsg = false → env.targetPath = none →
      (_collect_rust_messages env (.mk imsg ilevel icode [] []) none st).msg = st.msg ∧
      (_collect_rust_messages env (.mk imsg ilevel icode [] []) none st).children = st.children ∧
      (env.hasMsgCb = true →
        (_collect_rust_messages env (.mk imsg ilevel icode [] []) none st).side
          = st.side ++ [sideNoteMsg st.counter ilevel imsg]) ∧
      (env.hasMsgCb = false →
        (_collect_rust_messages env (.mk imsg ilevel icode [] []) none st).side = st.side)) := by
  have hcollect : _collect_rust_messages env (.mk imsg ilevel icode [] []) none st
      = (collectZeroSpans env imsg ilevel icode none st).1 := by
    simp [_collect_rust_messages, hgate, spanLoop, collectChildrenList]
  refine ⟨?_, ?_, ?_⟩
  · intro hb
    rw [hcollect]
    simp [collectZeroSpans, hb]
  · intro hb tp htp
    rw [hcollect]
    simp [collectZeroSpans, hb, htp, set_primary_message, msgPrimaryUpdate,
      make_span_path, make_span_region, fakeSpan, RawSpan.line_start,
      RawSpan.file_name]
  · intro hb htp
    rw [hcollect]
    cases hcb : env.hasMsgCb with
    | true => simp [collectZeroSpans, hb, htp, hcb, sideNoteMsg]
    | false => simp [collectZeroSpans, hb, htp, hcb]

/-- Witness for C9: the boilerplate summary line is suppressed entirely,
leaving the state untouched. -/
theorem zero_span_global_note_witness :
    ((("error" : String) != "error") && w_env.hideWarnings) = false ∧
    is_boilerplate "aborting due to 2 previous errors" = true ∧
    _collect_rust_messages w_env
      (.mk "aborting due to 2 previous errors" "error" none [] []) none w_st = w_st :=
  ⟨rfl, by decide,
    (zero_span_global_note w_env "aborting due to 2 previous errors" "error" none w_st
      rfl).1 (by decide)⟩

/-! ### C1 -/

/-- Two builds of the same diagnostic on different fresh-id counters
agree on the core projection of the primary message. -/
theorem buildPrimary_core (env : Env) (d : Diag) (c1 c2 : Nat) :
    (buildPrimary env d c1).msg.core = (buildPrimary env d c2).msg.core :=
  collect_sim env d none
    { msg := { id := c1 }, children := [], side := [], counter := c1 + 1 }
    { msg := { id := c2 }, children := [], side := [], counter := c2 + 1 } rfl

/-- Core equality determines the path. -/
theorem core_path_eq (m1 m2 : Message) (h : m1.core = m2.core) :
    m1.path = m2.path :=
  congrArg (fun t => t.1) h

/-- add_rust_messages on a compiler-message record whose built primary
message carries a path: the duplicate test decides between dropping the
record and batching plus saving it. -/
theorem add_rust_messages_run (env : Env) (win : Option WindowInfo)
    (rec : RawRecord) (c0 : Nat)
    (hr : rec.reason = some "compiler-message")
    (hp : pathFalsy (buildPrimary env rec.message c0).msg.path = false) :
    add_rust_messages env win rec c0
      = if _is_duplicate_message win (buildPrimary env rec.message c0).msg then
          ⟨win, (buildPrimary env rec.message c0).counter,
            (buildPrimary env rec.message c0).side⟩
        else
          ⟨some (_save_batches env win
              (_batch_and_cross_link env (buildPrimary env rec.message c0).msg
                (buildPrimary env rec.message c0).children)).1,
            (buildPrimary env rec.message c0).counter,
            (buildPrimary env rec.message c0).side
              ++ (_save_batches env win
                (_batch_and_cross_link env (buildPrimary env rec.message c0).msg
                  (buildPrimary env rec.message c0).children)).2⟩ := by
  unfold add_rust_messages
  rw [hr]
  dsimp only
  rw [if_neg (by decide)]
  rw [hp]
  rw [if_neg (fun h => Bool.false_ne_true h)]

/-- C1: ingestion is deduplicating-idempotent.  For a compiler-message
record whose built primary message carries a path, after a first
ingestion into the empty store the rebuilt primary message is judged a
duplicate of the stored one and a second ingestion of the same record
returns the store unchanged, the record having been dropped before
batching; the store holds exactly one PrimaryBatch for the path of the
diagnostic. -/
theorem ingest_dedup_idempotent (env : Env) (rec : RawRecord) (c0 : Nat)
    (hr : rec.reason = some "compiler-message")
    (hp : pathFalsy (buildPrimary env rec.message c0).msg.path = false) :
    _is_duplicate_message (add_rust_messages env none rec c0).win
        (buildPrimary env rec.message (add_rust_messages env none rec c0).counter).msg
      = true
    ∧ (add_rust_messages env (add_rust_messages env none rec c0).win rec
          (add_rust_messages env none rec c0).counter).win
        = (add_rust_messages env none rec c0).win
    ∧ countPrimaryBatches (add_rust_messages env none rec c0).win
        ((buildPrimary env rec.message c0).msg.path.getD "") = 1 := by
  obtain ⟨p, hpathp, hpne⟩ :
      ∃ p, (buildPrimary env rec.message c0).msg.path = some p ∧ p.isEmpty = false := by
    cases hpp : (buildPrimary env rec.message c0).msg.path with
    | none => rw [hpp] at hp; simp [pathFalsy] at hp
    | some s =>
      refine ⟨s, rfl, ?_⟩
      rw [hpp] at hp
      simpa [pathFalsy] using hp
  have hdup0 : _is_duplicate_message none (buildPrimary env rec.message c0).msg = false := rfl
  have hrun1 := add_rust_messages_run env none rec c0 hr hp
  rw [if_neg (by simp [hdup0])] at hrun1
  have hwin : (add_rust_messages env none rec c0).win
      = some (_save_batches env none
          (_batch_and_cross_link env (buildPrimary env rec.message c0).msg
            (buildPrimary env rec.message c0).children)).1 := by
    rw [hrun1]
  have hcnt : (add_rust_messages env none rec c0).counter
      = (buildPrimary env rec.message c0).counter := by
    rw [hrun1]
  obtain ⟨tl, hB0, htl⟩ := batch_out_cons env (buildPrimary env rec.message c0).msg
    (buildPrimary env rec.message c0).children
  obtain ⟨ch, links, hB⟩ :
      ∃ ch links, _batch_and_cross_link env (buildPrimary env rec.message c0).msg
          (buildPrimary env rec.message c0).children
        = primaryBatchFor (buildPrimary env rec.message c0).msg ch links :: tl :=
    ⟨_, _, hB0⟩
  have hkey : (primaryBatchFor (buildPrimary env rec.message c0).msg ch links).pathKey = p := by
    simp [primaryBatchFor, MessageBatch.pathKey, MessageBatch.first?, hpathp]
  obtain ⟨d2, hd2eq, hd2core⟩ :
      ∃ d2 : PrimaryBatchData,
        setRegionKeys (primaryBatchFor (buildPrimary env rec.message c0).msg ch links) 0
          = MessageBatch.primary d2
        ∧ d2.primary_message.core = (buildPrimary env rec.message c0).msg.core :=
    setRegionKeys_primary_core ⟨(buildPrimary env rec.message c0).msg, ch, links⟩ 0
  obtain ⟨cb1, hstep⟩ :
      ∃ cb1, _save_batches env none
          (primaryBatchFor (buildPrimary env rec.message c0).msg ch links :: tl)
        = _save_batches_loop env
            ⟨[((primaryBatchFor (buildPrimary env rec.message c0).msg ch links).pathKey,
               [setRegionKeys (primaryBatchFor (buildPrimary env rec.message c0).msg ch links) 0])],
             (-1, -1), false⟩
            cb1 tl :=
    ⟨_, rfl⟩
  have hlook1 :
      lookupPath [((primaryBatchFor (buildPrimary env rec.message c0).msg ch links).pathKey,
          [setRegionKeys (primaryBatchFor (buildPrimary env rec.message c0).msg ch links) 0])] p
        = some [setRegionKeys (primaryBatchFor (buildPrimary env rec.message c0).msg ch links) 0] := by
    rw [hkey]
    simp [lookupPath]
  obtain ⟨l2, hl2⟩ := save_loop_prefix env tl
    ⟨[((primaryBatchFor (buildPrimary env rec.message c0).msg ch links).pathKey,
       [setRegionKeys (primaryBatchFor (buildPrimary env rec.message c0).msg ch links) 0])],
     (-1, -1), false⟩
    cb1 p [setRegionKeys (primaryBatchFor (buildPrimary env rec.message c0).msg ch links) 0]
    hlook1
  have hWlook :
      lookupPath (_save_batches env none
          (_batch_and_cross_link env (buildPrimary env rec.message c0).msg
            (buildPrimary env rec.message c0).children)).1.paths p
        = some ([setRegionKeys (primaryBatchFor (buildPrimary env rec.message c0).msg ch links) 0]
            ++ l2) := by
    rw [hB, hstep]
    exact hl2
  have hcore1 :
      (buildPrimary env rec.message (buildPrimary env rec.message c0).counter).msg.core
        = (buildPrimary env rec.message c0).msg.core :=
    buildPrimary_core env rec.message (buildPrimary env rec.message c0).counter c0
  have hpath1 :
      (buildPrimary env rec.message (buildPrimary env rec.message c0).counter).msg.path
        = some p := by
    rw [core_path_eq _ _ hcore1, hpathp]
  have hsim :
      d2.primary_message.is_similar
        (buildPrimary env rec.message (buildPrimary env rec.message c0).counter).msg = true := by
    apply is_similar_of_core_eq
    rw [hd2core, hcore1]
  have hmem :
      MessageBatch.primary d2
        ∈ [setRegionKeys (primaryBatchFor (buildPrimary env rec.message c0).msg ch links) 0]
            ++ l2 := by
    rw [← hd2eq]
    exact List.mem_append_left _ (List.mem_singleton_self _)
  have hC1 :
      _is_duplicate_message (add_rust_messages env none rec c0).win
        (buildPrimary env rec.message (add_rust_messages env none rec c0).counter).msg = true := by
    rw [hwin, hcnt]
    exact dup_of_mem _ _ p _ d2 hpath1 hWlook hmem hsim
  have hp2 :
      pathFalsy (buildPrimary env rec.message
        (add_rust_messages env none rec c0).counter).msg.path = false := by
    rw [hcnt, hpath1]
    simpa [pathFalsy] using hpne
  have hrun2 := add_rust_messages_run env (add_rust_messages env none rec c0).win rec
    (add_rust_messages env none rec c0).counter hr hp2
  rw [if_pos hC1] at hrun2
  refine ⟨hC1, ?_, ?_⟩
  · rw [hrun2]
  · rw [hwin, hpathp]
    show ((lookupPath (_save_batches env none
        (_batch_and_cross_link env (buildPrimary env rec.message c0).msg
          (buildPrimary env rec.message c0).children)).1.paths p).getD []).countP
        (fun b => b.isPrimaryBatch) = 1
    rw [hB]
    have hcount := save_loop_count env
      (primaryBatchFor (buildPrimary env rec.message c0).msg ch links :: tl)
      ⟨[], (-1, -1), false⟩ [] p
    show ((lookupPath (_save_batches_loop env ⟨[], (-1, -1), false⟩ []
        (primaryBatchFor (buildPrimary env rec.message c0).msg ch links :: tl)).1.paths p).getD
        []).countP (fun b => b.isPrimaryBatch) = 1
    rw [hcount]
    have h1 : ((lookupPath (WindowInfo.mk [] (-1, -1) false).paths p).getD []).countP
        (fun b => b.isPrimaryBatch) = 0 := rfl
    have h2 : tl.countP (fun b => decide (b.pathKey = p) && b.isPrimaryBatch) = 0 := by
      rw [List.countP_eq_zero]
      intro b hb
      simp [htl b hb]
    have h3 : (decide ((primaryBatchFor (buildPrimary env rec.message c0).msg ch links).pathKey = p)
        && (primaryBatchFor (buildPrimary env rec.message c0).msg ch links).isPrimaryBatch)
        = true := by
      rw [hkey]
      simp [primaryBatchFor, MessageBatch.isPrimaryBatch]
    rw [h1]
    simp only [List.countP_cons, h2, h3, Nat.zero_add]
    simp

/-- Witness for C1 at a concrete record carrying one primary span. -/
theorem ingest_dedup_idempotent_witness :
    c1_rec.reason = some "compiler-message"
    ∧ pathFalsy (buildPrimary w_env c1_rec.message 0).msg.path = false
    ∧ (_is_duplicate_message (add_rust_messages w_env none c1_rec 0).win
          (buildPrimary w_env c1_rec.message (add_rust_messages w_env none c1_rec 0).counter).msg
        = true
      ∧ (add_rust_messages w_env (add_rust_messages w_env none c1_rec 0).win c1_rec
            (add_rust_messages w_env none c1_rec 0).counter).win
          = (add_rust_messages w_env none c1_rec 0).win
      ∧ countPrimaryBatches (add_rust_messages w_env none c1_rec 0).win
          ((buildPrimary w_env c1_rec.message 0).msg.path.getD "") = 1) :=
  ⟨rfl, by decide, ingest_dedup_idempotent w_env c1_rec 0 rfl (by decide)⟩

/-! ### C3 -/

/-- Bool equality from propositional equivalence. -/
theorem bool_eq_of_iff (a b : Bool) (h : a = true ↔ b = true) : a = b := by
  cases a <;> cases b <;> simp_all

/-- Shifting the starting path index of the position list. -/
theorem positionsFrom_shift (paths : List (List MessageBatch)) :
    ∀ k, positionsFrom k paths = (positionsFrom 0 paths).map (fun q => (q.1 + k, q.2)) := by
  induction paths with
  | nil => intro k; rfl
  | cons bs rest ih =>
    intro k
    show (List.range bs.length).map (fun bi => (k, bi)) ++ positionsFrom (k + 1) rest
      = ((List.range bs.length).map (fun bi => ((0 : Nat), bi)) ++ positionsFrom 1 rest).map
          (fun q => (q.1 + k, q.2))
    rw [List.map_append, List.map_map, ih (k + 1), ih 1, List.map_map]
    congr 1
    · apply List.map_congr_left
      intro j hj
      simp
    · apply List.map_congr_left
      intro q hq
      simp
      omega

/-- Every position points inside the batch-list list. -/
theorem positions_mem (paths : List (List MessageBatch)) :
    ∀ q ∈ positions paths, q.1 < paths.length ∧ q.2 < (paths[q.1]?.getD []).length := by
  induction paths with
  | nil => intro q hq; cases hq
  | cons bs rest ih =>
    intro q hq
    have hq2 : q ∈ (List.range bs.length).map (fun bi => ((0 : Nat), bi))
        ++ positionsFrom 1 rest := hq
    rw [List.mem_append] at hq2
    cases hq2 with
    | inl h =>
      obtain ⟨j, hj, rfl⟩ := List.mem_map.mp h
      rw [List.mem_range] at hj
      exact ⟨Nat.succ_pos _, by simpa using hj⟩
    | inr h =>
      rw [positionsFrom_shift rest 1] at h
      obtain ⟨q2, hq2, rfl⟩ := List.mem_map.mp h
      obtain ⟨h1, h2⟩ := ih q2 hq2
      refine ⟨by simpa using Nat.succ_lt_succ h1, ?_⟩
      simpa [List.getElem?_cons_succ] using h2

/-- Every in-range index pair is a position. -/
theorem positions_complete (paths : List (List MessageBatch)) :
    ∀ pi bi, pi < paths.length → bi < (paths[pi]?.getD []).length →
      (pi, bi) ∈ positions paths := by
  induction paths with
  | nil => intro pi bi h; simp at h
  | cons bs rest ih =>
    intro pi bi hpi hbi
    show (pi, bi) ∈ (List.range bs.length).map (fun j => ((0 : Nat), j))
      ++ positionsFrom 1 rest
    rw [List.mem_append]
    cases pi with
    | zero =>
      left
      refine List.mem_map.mpr ⟨bi, ?_, rfl⟩
      rw [List.mem_range]
      simpa using hbi
    | succ n =>
      right
      rw [positionsFrom_shift rest 1]
      exact List.mem_map.mpr
        ⟨(n, bi), ih n bi (by simpa using hpi) (by simpa using hbi), rfl⟩

/-- The position list is strictly sorted in scan order. -/
theorem positions_sorted (paths : List (List MessageBatch)) :
    (positions paths).Pairwise (fun a b => lexLtN a b = true) := by
  induction paths with
  | nil => exact List.Pairwise.nil
  | cons bs rest ih =>
    show ((List.range bs.length).map (fun j => ((0 : Nat), j))
      ++ positionsFrom 1 rest).Pairwise _
    rw [List.pairwise_append]
    refine ⟨?_, ?_, ?_⟩
    · refine List.Pairwise.map _ ?_ (List.pairwise_lt_range bs.length)
      intro a b hab
      simp [lexLtN, hab]
    · rw [positionsFrom_shift rest 1]
      refine List.Pairwise.map _ ?_ ih
      intro a b hab
      simp only [lexLtN, Bool.or_eq_true, Bool.and_eq_true, decide_eq_true_eq] at hab ⊢
      omega
    · intro a ha b hb
      obtain ⟨j, hj, rfl⟩ := List.mem_map.mp ha
      rw [positionsFrom_shift rest 1] at hb
      obtain ⟨q2, hq2, rfl⟩ := List.mem_map.mp hb
      simp [lexLtN]

/-- Extracting the least element from a filtered sorted list: when a is
a member on which p fails and every p-match lies strictly after a,
admitting a into the filter puts it exactly at the front. -/
theorem filter_extract_head (a : Nat × Nat) (p : Nat × Nat → Bool) :
    ∀ l : List (Nat × Nat), l.Pairwise (fun x y => lexLtN x y = true) → a ∈ l →
      p a = false → (∀ x ∈ l, p x = true → lexLtN a x = true) →
      l.filter (fun x => decide (x = a) || p x) = a :: l.filter p := by
  intro l
  induction l with
  | nil => intro _ ha; cases ha
  | cons x t ih =>
    intro hs ha hpa hord
    rw [List.pairwise_cons] at hs
    obtain ⟨hx, ht⟩ := hs
    by_cases hxa : x = a
    · subst hxa
      rw [List.filter_cons_of_pos (by simp), List.filter_cons_of_neg (by simp [hpa])]
      congr 1
      apply List.filter_congr
      intro y hy
      have h1 := hx y hy
      simp only [lexLtN, Bool.or_eq_true, Bool.and_eq_true, decide_eq_true_eq] at h1
      have hne : decide (y = x) = false := by
        simp only [decide_eq_false_iff_not]
        intro he
        rw [he] at h1
        omega
      rw [hne, Bool.false_or]
    · have hat : a ∈ t := by
        cases List.mem_cons.mp ha with
        | inl h => exact absurd h.symm hxa
        | inr h => exact h
      have hpx : p x = false := by
        cases hcase : p x with
        | false => rfl
        | true =>
          exfalso
          have h1 := hord x (List.mem_cons_self x t) hcase
          have h2 := hx a hat
          simp only [lexLtN, Bool.or_eq_true, Bool.and_eq_true, decide_eq_true_eq] at h1 h2
          omega
      rw [List.filter_cons_of_neg (by simp [hxa, hpx]),
          List.filter_cons_of_neg (by simp [hpx])]
      exact ih ht hat hpa (fun y hy hp => hord y (List.mem_cons_of_mem x hy) hp)

/-- Extracting the greatest element from a filtered sorted list: when a
is a member on which p fails and every p-match lies strictly before a,
admitting a into the filter puts it exactly at the back. -/
theorem filter_extract_last (a : Nat × Nat) (p : Nat × Nat → Bool) :
    ∀ l : List (Nat × Nat), l.Pairwise (fun x y => lexLtN x y = true) → a ∈ l →
      p a = false → (∀ x ∈ l, p x = true → lexLtN x a = true) →
      l.filter (fun x => p x || decide (x = a)) = l.filter p ++ [a] := by
  intro l
  induction l with
  | nil => intro _ ha; cases ha
  | cons x t ih =>
    intro hs ha hpa hord
    rw [List.pairwise_cons] at hs
    obtain ⟨hx, ht⟩ := hs
    by_cases hxa : x = a
    · subst hxa
      have htp : t.filter p = [] := by
        rw [List.filter_eq_nil_iff]
        intro y hy hpy
        have h1 := hord y (List.mem_cons_of_mem x hy) hpy
        have h2 := hx y hy
        simp only [lexLtN, Bool.or_eq_true, Bool.and_eq_true, decide_eq_true_eq] at h1 h2
        omega
      have htp2 : t.filter (fun y => p y || decide (y = x)) = [] := by
        rw [List.filter_eq_nil_iff]
        intro y hy
        have h2 := hx y hy
        simp only [lexLtN, Bool.or_eq_true, Bool.and_eq_true, decide_eq_true_eq] at h2
        have hpy : p y = false := by
          cases hcase : p y with
          | false => rfl
          | true =>
            exfalso
            have h1 := hord y (List.mem_cons_of_mem x hy) hcase
            simp only [lexLtN, Bool.or_eq_true, Bool.and_eq_true, decide_eq_true_eq] at h1
            omega
        have hne : decide (y = x) = false := by
          simp only [decide_eq_false_iff_not]
          intro he
          rw [he] at h2
          omega
        simp [hpy, hne]
      rw [List.filter_cons_of_pos (by simp), List.filter_cons_of_neg (by simp [hpa]),
          htp, htp2]
      rfl
    · have hat : a ∈ t := by
        cases List.mem_cons.mp ha with
        | inl h => exact absurd h.symm hxa
        | inr h => exact h
      have hihx := ih ht hat hpa (fun y hy hp => hord y (List.mem_cons_of_mem x hy) hp)
      cases hcase : p x with
      | true =>
        rw [List.filter_cons_of_pos (by simp [hcase]), List.filter_cons_of_pos hcase,
            hihx]
        rfl
      | false =>
        rw [List.filter_cons_of_neg (by simp [hcase, hxa]),
            List.filter_cons_of_neg (by simp [hcase])]
        exact hihx

/-- From the very first position the scan-order filter keeps every
position. -/
theorem filter_lexGeN_zero (paths : List (List MessageBatch)) :
    (positions paths).filter (fun q => lexGeN (0, 0) q) = positions paths := by
  rw [List.filter_eq_self]
  intro q hq
  simp only [lexGeN, Bool.or_eq_true, Bool.and_eq_true, decide_eq_true_eq]
  omega

/-- Past the last path the scan-order filter keeps nothing. -/
theorem filter_lexGeN_offEnd (paths : List (List MessageBatch)) (pi bi : Nat)
    (h : paths.length ≤ pi) :
    (positions paths).filter (fun q => lexGeN (pi, bi) q) = [] := by
  rw [List.filter_eq_nil_iff]
  intro q hq
  have h1 := (positions_mem paths q hq).1
  simp only [lexGeN, Bool.or_eq_true, Bool.and_eq_true, decide_eq_true_eq]
  omega

/-- Running off the end of one path is the same as starting at the head
of the next path. -/
theorem filter_lexGeN_nextPath (paths : List (List MessageBatch)) (pi bi : Nat)
    (bs : List MessageBatch) (hp : paths[pi]? = some bs) (hbi : bs.length ≤ bi) :
    (positions paths).filter (fun q => lexGeN (pi, bi) q)
      = (positions paths).filter (fun q => lexGeN (pi + 1, 0) q) := by
  apply List.filter_congr
  intro q hq
  obtain ⟨h1, h2⟩ := positions_mem paths q hq
  apply bool_eq_of_iff
  simp only [lexGeN, Bool.or_eq_true, Bool.and_eq_true, decide_eq_true_eq]
  by_cases hq1 : q.1 = pi
  · have hlen : q.2 < bs.length := by
      rw [hq1, hp] at h2
      simpa using h2
    omega
  · omega

/-- A valid start position is itself the first element kept by the
scan-order filter. -/
theorem filter_lexGeN_step (paths : List (List MessageBatch)) (pi bi : Nat)
    (bs : List MessageBatch) (b : MessageBatch)
    (hp : paths[pi]? = some bs) (hb : bs[bi]? = some b) :
    (positions paths).filter (fun q => lexGeN (pi, bi) q)
      = (pi, bi) :: (positions paths).filter (fun q => lexGeN (pi, bi + 1) q) := by
  have hpil : pi < paths.length := by
    by_contra hc
    rw [List.getElem?_eq_none (Nat.le_of_not_lt hc)] at hp
    cases hp
  have hbil : bi < (paths[pi]?.getD []).length := by
    rw [hp]
    simp only [Option.getD_some]
    by_contra hc
    rw [List.getElem?_eq_none (Nat.le_of_not_lt hc)] at hb
    cases hb
  have hkey : ∀ q, (fun q => lexGeN (pi, bi) q) q
      = (fun q => decide (q = (pi, bi)) || lexGeN (pi, bi + 1) q) q := by
    intro q
    apply bool_eq_of_iff
    simp only [lexGeN, Bool.or_eq_true, Bool.and_eq_true, decide_eq_true_eq, Prod.ext_iff]
    omega
  rw [List.filter_congr (fun q _ => hkey q)]
  apply filter_extract_head (pi, bi) (fun q => lexGeN (pi, bi + 1) q) (positions paths)
    (positions_sorted paths) (positions_complete paths pi bi hpil hbil)
  · apply bool_eq_of_iff
    simp only [lexGeN, Bool.or_eq_true, Bool.and_eq_true, decide_eq_true_eq,
      Bool.false_eq_true, iff_false]
    omega
  · intro x hx hpx
    simp only [lexGeN, Bool.or_eq_true, Bool.and_eq_true, decide_eq_true_eq] at hpx
    simp only [lexLtN, Bool.or_eq_true, Bool.and_eq_true, decide_eq_true_eq]
    omega

/-- scanF at a missing path index returns nothing. -/
theorem scanF_eq_none (ok : MessageBatch → Bool) (paths : List (List MessageBatch))
    (pi bi : Nat) (h : paths[pi]? = none) : scanF ok paths pi bi = none := by
  conv_lhs => rw [scanF.eq_def]
  split
  · rfl
  · rename_i bs hp
    rw [h] at hp
    cases hp

/-- scanF past the end of one path steps to the head of the next. -/
theorem scanF_eq_shift (ok : MessageBatch → Bool) (paths : List (List MessageBatch))
    (pi bi : Nat) (bs : List MessageBatch) (h : paths[pi]? = some bs)
    (h2 : bs[bi]? = none) : scanF ok paths pi bi = scanF ok paths (pi + 1) 0 := by
  conv_lhs => rw [scanF.eq_def]
  split
  · rename_i hp
    rw [h] at hp
    cases hp
  · rename_i bs2 hp
    rw [h] at hp
    cases hp
    split
    · rfl
    · rename_i b hb
      rw [h2] at hb
      cases hb

/-- scanF at a present batch tests it and otherwise steps on. -/
theorem scanF_eq_cons (ok : MessageBatch → Bool) (paths : List (List MessageBatch))
    (pi bi : Nat) (bs : List MessageBatch) (b : MessageBatch)
    (h : paths[pi]? = some bs) (h2 : bs[bi]? = some b) :
    scanF ok paths pi bi = if ok b then some (pi, bi) else scanF ok paths pi (bi + 1) := by
  conv_lhs => rw [scanF.eq_def]
  split
  · rename_i hp
    rw [h] at hp
    cases hp
  · rename_i bs2 hp
    rw [h] at hp
    cases hp
    split
    · rename_i hb
      rw [h2] at hb
      cases hb
    · rename_i b2 hb
      rw [h2] at hb
      cases hb
      rfl

/-- The forward scan is the first match of the scan-order filter of the
position list. -/
theorem scanF_spec (ok : MessageBatch → Bool) (paths : List (List MessageBatch))
    (pi bi : Nat) :
    scanF ok paths pi bi
      = ((positions paths).filter (fun q => lexGeN (pi, bi) q)).find? (okPos ok paths) := by
  induction pi, bi using scanF.induct ok paths with
  | case1 pi bi hp =>
    have hlen : paths.length ≤ pi := by
      by_contra hc
      rw [List.getElem?_eq_getElem (Nat.lt_of_not_le hc)] at hp
      cases hp
    rw [scanF_eq_none ok paths pi bi hp, filter_lexGeN_offEnd paths pi bi hlen]
    rfl
  | case2 pi bi bs hp hb ih =>
    have hbs : bs.length ≤ bi := by
      by_contra hc
      rw [List.getElem?_eq_getElem (Nat.lt_of_not_le hc)] at hb
      cases hb
    rw [scanF_eq_shift ok paths pi bi bs hp hb, filter_lexGeN_nextPath paths pi bi bs hp hbs]
    exact ih
  | case3 pi bi bs hp b hb hok =>
    rw [scanF_eq_cons ok paths pi bi bs b hp hb, if_pos hok,
        filter_lexGeN_step paths pi bi bs b hp hb]
    have hokp : okPos ok paths (pi, bi) = true := by
      simp only [okPos, hp, Option.getD_some, hb, Option.map_some']
      exact hok
    rw [List.find?_cons_of_pos _ hokp]
  | case4 pi bi bs hp b hb hok ih =>
    rw [scanF_eq_cons ok paths pi bi bs b hp hb, if_neg hok,
        filter_lexGeN_step paths pi bi bs b hp hb]
    have hokp : ¬ okPos ok paths (pi, bi) = true := by
      simp only [okPos, hp, Option.getD_some, hb, Option.map_some']
      exact hok
    rw [List.find?_cons_of_neg _ hokp]
    exact ih

/-- The first match of a list is the head of its filtering. -/
theorem find_eq_head_filter {α : Type} (p : α → Bool) :
    ∀ l : List α, l.find? p = (l.filter p).head? := by
  intro l
  induction l with
  | nil => rfl
  | cons x t ih =>
    by_cases h : p x = true
    · rw [List.find?_cons_of_pos _ h, List.filter_cons_of_pos h]
      rfl
    · rw [List.find?_cons_of_neg _ h, List.filter_cons_of_neg h, ih]

/-- The last match of a list is the last element of its filtering. -/
theorem revfind_eq_getLast_filter {α : Type} (p : α → Bool) :
    ∀ l : List α, l.reverse.find? p = (l.filter p).getLast? := by
  intro l
  induction l with
  | nil => rfl
  | cons x t ih =>
    rw [List.reverse_cons, List.find?_append, ih]
    by_cases h : p x = true
    · rw [List.filter_cons_of_pos h, List.getLast?_cons]
      have hx : [x].find? p = some x := by
        rw [List.find?_cons_of_pos _ h]
      rw [hx]
      cases hgl : (t.filter p).getLast? with
      | none => rfl
      | some y => rfl
    · rw [List.filter_cons_of_neg h]
      have hx : [x].find? p = none := by
        rw [List.find?_cons_of_neg _ h]
        rfl
      rw [hx, Option.or_none]

/-- Two filters of one list commute. -/
theorem filter_swap {α : Type} (p q : α → Bool) (l : List α) :
    (l.filter p).filter q = (l.filter q).filter p := by
  rw [List.filter_filter, List.filter_filter]
  exact List.filter_congr (fun a _ => Bool.and_comm _ _)

/-- The level filter of the navigator agrees with the filter the claim
describes, for every filter string. -/
theorem is_matching_level_eq (levels : String) (m : Message) :
    _is_matching_level levels m
      = (m.primary && (levels == "all" ||
          (levels == "error" && m.level == some Level.error) ||
          (levels == "warning" && m.level != some Level.error))) := by
  unfold _is_matching_level
  cases hp : m.primary with
  | false => simp
  | true =>
    simp only [Bool.not_true, Bool.false_eq_true, if_false, Bool.true_and]
    by_cases h1 : levels = "all"
    · subst h1
      simp
    · by_cases h2 : levels = "error"
      · subst h2
        by_cases h3 : m.level = some Level.error <;> simp [h1, h3]
      · by_cases h4 : levels = "warning"
        · subst h4
          by_cases h3 : m.level = some Level.error <;> simp [h1, h2, h3]
        · simp [h1, h2, h4]

/-- The candidate test of the navigator agrees with the candidate test
the claim describes. -/
theorem candidateOk_eq_specMatches (levels : String) (b : MessageBatch) :
    candidateOk levels b = specMatches levels b := by
  unfold candidateOk specMatches
  congr 1
  cases hf : b.first? with
  | none => rfl
  | some m =>
    simp only [Option.map_some', Option.getD_some]
    exact is_matching_level_eq levels m

/-- scanB below the first path returns nothing. -/
theorem scanB_eq_neg (ok : MessageBatch → Bool) (paths : List (List MessageBatch))
    (pi bi : Int) (h : pi < 0) : scanB ok paths pi bi = none := by
  conv_lhs => rw [scanB.eq_def]
  rw [dif_pos h]

/-- scanB crossing to the previous path. -/
theorem scanB_eq_cross (ok : MessageBatch → Bool) (paths : List (List MessageBatch))
    (pi bi : Int) (bs : List MessageBatch) (hneg : ¬ pi < 0)
    (hp : paths[pi.toNat]? = some bs) (hb : bi < 0) (h1 : pi - 1 ≥ 0) :
    scanB ok paths pi bi
      = scanB ok paths (pi - 1) (((paths[(pi - 1).toNat]?.getD []).length : Int) - 1) := by
  conv_lhs => rw [scanB.eq_def]
  rw [dif_neg hneg]
  split
  · rename_i hp2
    rw [hp] at hp2
    cases hp2
  · rename_i bs2 hp2
    rw [hp] at hp2
    cases hp2
    rw [dif_pos hb, dif_pos h1]

/-- scanB crossing below the first path returns nothing. -/
theorem scanB_eq_cross_end (ok : MessageBatch → Bool) (paths : List (List MessageBatch))
    (pi bi : Int) (bs : List MessageBatch) (hneg : ¬ pi < 0)
    (hp : paths[pi.toNat]? = some bs) (hb : bi < 0) (h1 : ¬ pi - 1 ≥ 0) :
    scanB ok paths pi bi = none := by
  conv_lhs => rw [scanB.eq_def]
  rw [dif_neg hneg]
  split
  · rename_i hp2
    rw [hp] at hp2
  · rename_i bs2 hp2
    rw [hp] at hp2
    cases hp2
    rw [dif_pos hb, dif_neg h1]

/-- scanB at a present batch tests it and otherwise steps back. -/
theorem scanB_eq_cons (ok : MessageBatch → Bool) (paths : List (List MessageBatch))
    (pi bi : Int) (bs : List MessageBatch) (b : MessageBatch) (hneg : ¬ pi < 0)
    (hp : paths[pi.toNat]? = some bs) (hb : ¬ bi < 0) (hbb : bs[bi.toNat]? = some b) :
    scanB ok paths pi bi
      = if ok b then some (pi.toNat, bi.toNat) else scanB ok paths pi (bi - 1) := by
  conv_lhs => rw [scanB.eq_def]
  rw [dif_neg hneg]
  split
  · rename_i hp2
    rw [hp] at hp2
    cases hp2
  · rename_i bs2 hp2
    rw [hp] at hp2
    cases hp2
    rw [dif_neg hb]
    split
    · rename_i b2 hb2
      rw [hbb] at hb2
      cases hb2
      rfl
    · rename_i hb2
      rw [hbb] at hb2
      cases hb2

/-- Below the first position the back-scan filter keeps nothing. -/
theorem filter_lexLeI_neg (paths : List (List MessageBatch)) (pi bi : Int)
    (h : pi < 0) :
    (positions paths).filter (fun q => lexLeI (pi, bi) q) = [] := by
  rw [List.filter_eq_nil_iff]
  intro q hq
  simp only [lexLeI, Bool.or_eq_true, Bool.and_eq_true, decide_eq_true_eq]
  omega

/-- From the head path with a negative batch index the back-scan filter
keeps nothing. -/
theorem filter_lexLeI_zero (paths : List (List MessageBatch)) (pi bi : Int)
    (h0 : ¬ pi < 0) (h1 : ¬ pi - 1 ≥ 0) (hb : bi < 0) :
    (positions paths).filter (fun q => lexLeI (pi, bi) q) = [] := by
  rw [List.filter_eq_nil_iff]
  intro q hq
  simp only [lexLeI, Bool.or_eq_true, Bool.and_eq_true, decide_eq_true_eq]
  omega

/-- Running below the start of one path is the same as starting at the
tail of the previous path. -/
theorem filter_lexLeI_cross (paths : List (List MessageBatch)) (pi bi : Int)
    (hneg : ¬ pi < 0) (hb : bi < 0) (h1 : pi - 1 ≥ 0)
    (hpi : pi < (paths.length : Int)) :
    (positions paths).filter (fun q => lexLeI (pi, bi) q)
      = (positions paths).filter (fun q =>
          lexLeI (pi - 1, ((paths[(pi - 1).toNat]?.getD []).length : Int) - 1) q) := by
  apply List.filter_congr
  intro q hq
  obtain ⟨hm1, hm2⟩ := positions_mem paths q hq
  apply bool_eq_of_iff
  simp only [lexLeI, Bool.or_eq_true, Bool.and_eq_true, decide_eq_true_eq]
  by_cases hq1 : (q.1 : Int) = pi - 1
  · have hq1n : q.1 = (pi - 1).toNat := by omega
    rw [← hq1n]
    omega
  · omega

/-- A valid start position is itself the last element kept by the
back-scan filter. -/
theorem filter_lexLeI_extract (paths : List (List MessageBatch)) (pi bi : Int)
    (bs : List MessageBatch) (b : MessageBatch) (hneg : ¬ pi < 0) (hb : ¬ bi < 0)
    (hp : paths[pi.toNat]? = some bs) (hbb : bs[bi.toNat]? = some b) :
    (positions paths).filter (fun q => lexLeI (pi, bi) q)
      = (positions paths).filter (fun q => lexLeI (pi, bi - 1) q)
          ++ [(pi.toNat, bi.toNat)] := by
  have hpil : pi.toNat < paths.length := by
    by_contra hc
    rw [List.getElem?_eq_none (Nat.le_of_not_lt hc)] at hp
    cases hp
  have hbil : bi.toNat < (paths[pi.toNat]?.getD []).length := by
    rw [hp]
    simp only [Option.getD_some]
    by_contra hc
    rw [List.getElem?_eq_none (Nat.le_of_not_lt hc)] at hbb
    cases hbb
  have hkey : ∀ q, (fun q => lexLeI (pi, bi) q) q
      = (fun q => lexLeI (pi, bi - 1) q || decide (q = (pi.toNat, bi.toNat))) q := by
    intro q
    apply bool_eq_of_iff
    simp only [lexLeI, Bool.or_eq_true, Bool.and_eq_true, decide_eq_true_eq, Prod.ext_iff]
    omega
  rw [List.filter_congr (fun q _ => hkey q)]
  apply filter_extract_last (pi.toNat, bi.toNat) (fun q => lexLeI (pi, bi - 1) q)
    (positions paths) (positions_sorted paths)
    (positions_complete paths pi.toNat bi.toNat hpil hbil)
  · apply bool_eq_of_iff
    simp only [lexLeI, Bool.or_eq_true, Bool.and_eq_true, decide_eq_true_eq,
      Bool.false_eq_true, iff_false]
    omega
  · intro x hx hpx
    simp only [lexLeI, Bool.or_eq_true, Bool.and_eq_true, decide_eq_true_eq] at hpx
    simp only [lexLtN, Bool.or_eq_true, Bool.and_eq_true, decide_eq_true_eq]
    omega

/-- From the very last position the back-scan filter keeps every
position. -/
theorem filter_lexLeI_full (paths : List (List MessageBatch)) :
    (positions paths).filter (fun q =>
        lexLeI ((paths.length : Int) - 1,
          ((paths.getLast?.getD []).length : Int) - 1) q)
      = positions paths := by
  rw [List.filter_eq_self]
  intro q hq
  obtain ⟨hm1, hm2⟩ := positions_mem paths q hq
  simp only [lexLeI, Bool.or_eq_true, Bool.and_eq_true, decide_eq_true_eq]
  by_cases hq1 : (q.1 : Int) = (paths.length : Int) - 1
  · right
    refine ⟨hq1, ?_⟩
    have hq1n : q.1 = paths.length - 1 := by omega
    have hlen : paths.getLast?.getD [] = paths[q.1]?.getD [] := by
      rw [List.getLast?_eq_getElem?, hq1n]
    rw [hlen]
    omega
  · left
    omega

/-- The backward scan is the last match of the back-scan filter of the
position list. -/
theorem scanB_spec (ok : MessageBatch → Bool) (paths : List (List MessageBatch)) :
    ∀ pi bi : Int, pi < (paths.length : Int) →
      bi < ((paths[pi.toNat]?.getD []).length : Int) →
      scanB ok paths pi bi
        = ((positions paths).filter (fun q => lexLeI (pi, bi) q)).reverse.find?
            (okPos ok paths) := by
  intro pi bi
  induction pi, bi using scanB.induct ok paths with
  | case1 pi bi hneg =>
    intro hpi hbi
    rw [scanB_eq_neg ok paths pi bi hneg, filter_lexLeI_neg paths pi bi hneg]
    rfl
  | case2 pi bi hneg hp =>
    intro hpi hbi
    exfalso
    have hlt : pi.toNat < paths.length := by omega
    rw [List.getElem?_eq_getElem hlt] at hp
    cases hp
  | case3 pi bi hneg bs hp hb h1 len ih =>
    intro hpi hbi
    have hlen2 : len = ((paths[(pi - 1).toNat]?.getD []).length : Int) := rfl
    rw [hlen2] at ih
    rw [scanB_eq_cross ok paths pi bi bs hneg hp hb h1]
    rw [ih (by omega) (by omega)]
    rw [filter_lexLeI_cross paths pi bi hneg hb h1 hpi]
  | case4 pi bi hneg bs hp hb h1 =>
    intro hpi hbi
    rw [scanB_eq_cross_end ok paths pi bi bs hneg hp hb h1,
        filter_lexLeI_zero paths pi bi hneg h1 hb]
    rfl
  | case5 pi bi hneg bs hp hb b hbb hok =>
    intro hpi hbi
    rw [scanB_eq_cons ok paths pi bi bs b hneg hp hb hbb, if_pos hok,
        filter_lexLeI_extract paths pi bi bs b hneg hb hp hbb,
        List.reverse_append]
    have hokp : okPos ok paths (pi.toNat, bi.toNat) = true := by
      simp only [okPos, hp, Option.getD_some, hbb, Option.map_some']
      exact hok
    rw [show ([(pi.toNat, bi.toNat)].reverse
        ++ ((positions paths).filter (fun q => lexLeI (pi, bi - 1) q)).reverse)
      = (pi.toNat, bi.toNat)
        :: ((positions paths).filter (fun q => lexLeI (pi, bi - 1) q)).reverse from rfl]
    rw [List.find?_cons_of_pos _ hokp]
  | case6 pi bi hneg bs hp hb b hbb hok ih =>
    intro hpi hbi
    rw [scanB_eq_cons ok paths pi bi bs b hneg hp hb hbb, if_neg hok,
        filter_lexLeI_extract paths pi bi bs b hneg hb hp hbb,
        List.reverse_append]
    have hokp : ¬ okPos ok paths (pi.toNat, bi.toNat) = true := by
      simp only [okPos, hp, Option.getD_some, hbb, Option.map_some']
      exact hok
    rw [show ([(pi.toNat, bi.toNat)].reverse
        ++ ((positions paths).filter (fun q => lexLeI (pi, bi - 1) q)).reverse)
      = (pi.toNat, bi.toNat)
        :: ((positions paths).filter (fun q => lexLeI (pi, bi - 1) q)).reverse from rfl]
    rw [List.find?_cons_of_neg _ hokp]
    exact ih (by omega) (by omega)
  | case7 pi bi hneg bs hp hb hbb =>
    intro hpi hbi
    exfalso
    rw [hp] at hbi
    simp only [Option.getD_some] at hbi
    have hlt : bi.toNat < bs.length := by omega
    rw [List.getElem?_eq_getElem hlt] at hbb
    cases hbb

/-- The tail position of a batch-list list is in range of the entry the
last path index selects. -/
theorem last_index_lt (Q : List (List MessageBatch)) :
    (((Q.getLast?.getD []).length : Int)) - 1
      < ((Q[(((Q.length : Int)) - 1).toNat]?.getD []).length : Int) := by
  cases Q with
  | nil => simp
  | cons a t =>
    have h2 : ((((a :: t).length : Int)) - 1).toNat = (a :: t).length - 1 := by
      simp only [List.length_cons]
      omega
    rw [h2, ← List.getLast?_eq_getElem?]
    omega

/-- _advance_next_message agrees with the declarative specification. -/
theorem advance_next_spec (levels : String) (w : WindowInfo) :
    _advance_next_message levels w = specAdvanceNext levels w := by
  have hok : candidateOk levels = specMatches levels :=
    funext (fun b => candidateOk_eq_specMatches levels b)
  unfold _advance_next_message specAdvanceNext specCandidates navPaths
  dsimp only
  by_cases h1 : w.batch_index.1 = -1
  · rw [if_pos h1, if_pos h1]
    dsimp only
    rw [scanF_spec, filter_lexGeN_zero, hok, find_eq_head_filter]
  · rw [if_neg h1, if_neg h1]
    dsimp only
    rw [scanF_spec, hok, find_eq_head_filter, filter_swap]
    rw [scanF_spec, filter_lexGeN_zero, find_eq_head_filter]

/-- _advance_prev_message agrees with the declarative specification for
an unpositioned or validly positioned cursor. -/
theorem advance_prev_spec (levels : String) (w : WindowInfo)
    (hc : w.batch_index.1 = -1
      ∨ (0 ≤ w.batch_index.1 ∧ w.batch_index.1 < ((navPaths w).length : Int)
        ∧ 0 ≤ w.batch_index.2
        ∧ w.batch_index.2
            < (((navPaths w)[w.batch_index.1.toNat]?.getD []).length : Int))) :
    _advance_prev_message levels w = specAdvancePrev levels w := by
  have hok : candidateOk levels = specMatches levels :=
    funext (fun b => candidateOk_eq_specMatches levels b)
  unfold navPaths at hc
  unfold _advance_prev_message specAdvancePrev specCandidates navPaths _last_index
  dsimp only
  set P := w.paths.map (fun pb => pb.2) with hP
  by_cases h1 : w.batch_index.1 = -1
  · rw [if_pos h1, if_pos h1]
    dsimp only
    rw [scanB_spec (candidateOk levels) P ((P.length : Int) - 1)
        (((P.getLast?.getD []).length : Int) - 1) (by omega) (last_index_lt P)]
    rw [filter_lexLeI_full P]
    rw [hok, revfind_eq_getLast_filter]
  · rw [if_neg h1, if_neg h1]
    dsimp only
    obtain ⟨hc1, hc2, hc3, hc4⟩ := hc.resolve_left h1
    rw [scanB_spec (candidateOk levels) P
        w.batch_index.1 (w.batch_index.2 - 1) (by omega) (by omega)]
    rw [hok, revfind_eq_getLast_filter, filter_swap]
    rw [scanB_spec (specMatches levels) P ((P.length : Int) - 1)
        (((P.getLast?.getD []).length : Int) - 1) (by omega) (last_index_lt P)]
    rw [filter_lexLeI_full P]
    rw [revfind_eq_getLast_filter]

/-- C3: the navigator advance functions skip every candidate batch that
is hidden, whose representative message is not primary, or whose level
fails the severity filter (all matches every level, error matches only
the error level, warning matches every level except error); forward
starts at the first position and backward at the last when the cursor is
unpositioned; a scan that runs off the end retries exactly once from the
opposite end in the same direction, a successful scan stores and returns
the first matching (path index, batch index), and when both passes fail
no match is reported and the cursor is left at (-1, -1).  Both advance
functions equal the declarative specification that picks the first
(respectively last) matching position in scan order from the filtered
position list, wrapping around once. -/
theorem navigator_advance_skips_and_wraps (levels : String) (w : WindowInfo)
    (hc : w.batch_index.1 = -1
      ∨ (0 ≤ w.batch_index.1 ∧ w.batch_index.1 < ((navPaths w).length : Int)
        ∧ 0 ≤ w.batch_index.2
        ∧ w.batch_index.2
            < (((navPaths w)[w.batch_index.1.toNat]?.getD []).length : Int))) :
    _advance_next_message levels w = specAdvanceNext levels w
    ∧ _advance_prev_message levels w = specAdvancePrev levels w :=
  ⟨advance_next_spec levels w, advance_prev_spec levels w hc⟩

/-- Witness for C3 at a concrete two-path store with an unpositioned
cursor and the error filter. -/
theorem navigator_advance_skips_and_wraps_witness :
    (c3_w.batch_index.1 = -1
      ∨ (0 ≤ c3_w.batch_index.1 ∧ c3_w.batch_index.1 < ((navPaths c3_w).length : Int)
        ∧ 0 ≤ c3_w.batch_index.2
        ∧ c3_w.batch_index.2
            < (((navPaths c3_w)[c3_w.batch_index.1.toNat]?.getD []).length : Int)))
    ∧ (_advance_next_message "error" c3_w = specAdvanceNext "error" c3_w
      ∧ _advance_prev_message "error" c3_w = specAdvancePrev "error" c3_w) :=
  ⟨Or.inl rfl, navigator_advance_skips_and_wraps "error" c3_w (Or.inl rfl)⟩

end RustMessages
